import Mathlib

/-!
# Verification of the TradeOps document-extraction pipeline

A shallow embedding, in Lean 4, of the pure orchestration logic of the
repository (`src/utils.py`, `src/processing.py`), together with theorems
settling the specification claims about it.

Modelling conventions:

* Python strings are Lean `String`s (a wrapper around `List Char` in this
  toolchain); Python string operations (`strip`, `lower`, slices, `rsplit`)
  are re-implemented faithfully on the character list.  Python's `\d` and the
  relevant library calls only ever see ASCII in this code base, so ASCII
  classifiers are used.
* Python floats that the code merely stores, multiplies and compares are
  modelled as rationals (`ℚ`); the code performs no float-specific operation
  (rounding, NaN, ...) on any path a claim touches.
* Parsed JSON values are modelled by the inductive `JsonVal`; Python dicts
  holding JSON data are association lists with dict semantics
  (`insertCell` = insert-or-replace, `List.lookup` = key lookup).
* `json.loads` is an external collaborator (Python's standard library); it is
  passed in as an abstract `decode : String → Option JsonObj` parameter.
  Concrete theorems instantiate it with a stub agreeing with `json.loads`
  on the strings actually probed.
* The Vertex AI transport, the classification/extraction responses and the
  injected configuration (`DOCUMENT_FIELDS`) are external collaborators; the
  pipeline theorems quantify over them as oracles keyed the same way the code
  keys its result dictionaries.
* Thread pools: the code writes each result dictionary entry exactly once,
  keyed by `(case_id, base_name)`, and the per-key row content does not
  depend on the completion order in which `as_completed` yields futures.
  The embedding therefore iterates result maps in task-submission order;
  every claim proved below is insensitive to that order.
-/

namespace DocPipe

/-! ## Python string primitives -/

/-- Characters stripped by Python's `str.strip()` (ASCII whitespace;
the code never feeds other whitespace through these paths). -/
def pySpace (c : Char) : Bool :=
  c = ' ' || c = '\t' || c = '\n' || c = '\r' || c = '\x0b' || c = '\x0c'

/-- `l` with leading and trailing characters satisfying `p` removed,
as Python's `str.strip(chars)` does. -/
def stripWhile (p : Char → Bool) (l : List Char) : List Char :=
  ((l.dropWhile p).reverse.dropWhile p).reverse

/-- Python `str.strip()` (no argument: whitespace). -/
def pyStrip (s : String) : String := ⟨stripWhile pySpace s.data⟩

/-- Python `str.lower()` (ASCII case folding suffices here). -/
def pyLower (s : String) : String := ⟨s.data.map Char.toLower⟩

/-- Python `s.startswith(p)`. -/
def pyStartsWith (s p : String) : Bool := p.data.isPrefixOf s.data

/-- Python `s.endswith(p)`. -/
def pyEndsWith (s p : String) : Bool := p.data.isSuffixOf s.data

/-- Python `s[a:-b]` for a non-negative slice: drop `a` characters at the
front and `b` at the back (empty if the string is shorter). -/
def pySlice (s : String) (a b : Nat) : String := ⟨((s.data.drop a).reverse.drop b).reverse⟩

/-! ## `utils.parse_filename_for_grouping`

Source: `src/utils.py`, lines 53–92.

The regex `re.search(r'(?:[ _]|Page)?(\d+)$', name_no_ext, re.IGNORECASE)`
is embedded by its semantics.  A match requires `\d+` anchored at `$`, so a
match exists iff the name ends in a digit; the digits captured by group 1 are
always the maximal trailing digit run (a separator consists of non-digit
characters, so it cannot overlap that run).  `re.search` returns the leftmost
match position: four characters spelling `page` (any case) immediately before
the digit run beat a single space/underscore there, which beats the bare
digit run.  These are the only possible start positions. -/

/-- `c` is one of the single-character separators `[ _]` of the grouping regex
(also exactly the character set of the later `.strip(' _')`). -/
def sepChar (c : Char) : Bool := c = ' ' || c = '_'

/-- Python `int()` of a non-empty ASCII digit string. -/
def natOfDigits (ds : List Char) : Nat := ds.foldl (fun n c => 10 * n + (c.toNat - 48)) 0

/-- Does the reversed prefix `r` start with the reversal of a case variant of
`"Page"`?  (`r` is the pre-digit part of the name, reversed.) -/
def startsWithPageRev (r : List Char) : Bool :=
  match r with
  | e :: g :: a :: p :: _ =>
      e.toLower = 'e' && g.toLower = 'g' && a.toLower = 'a' && p.toLower = 'p'
  | _ => false

/-- `Path(filename).name`: the segment after the last `/`. -/
def pathName (filename : String) : List Char :=
  (filename.data.reverse.takeWhile (fun c => c ≠ '/')).reverse

/-- `name_with_ext.rsplit('.', 1)`, keeping the part before the last dot
(the whole name when it has no dot). -/
def rsplitNoExt (nameWithExt : List Char) : List Char :=
  if nameWithExt.contains '.' then
    ((nameWithExt.reverse.dropWhile (fun c => c ≠ '.')).drop 1).reverse
  else nameWithExt

/-- `name_no_ext[:match.start()]` of the regex match: the pre-digit part
with the one separator the leftmost match consumed (a `Page` spelling beats
a single space/underscore) removed.  `preRev` is the pre-digit part,
reversed. -/
def matchPotentialBase (preRev : List Char) : List Char :=
  if startsWithPageRev preRev then (preRev.drop 4).reverse
  else
    match preRev with
    | c :: rest => if sepChar c then rest.reverse else preRev.reverse
    | [] => []

/-- The final safety check: an empty base name becomes `"unknown_doc"`. -/
def finalizeBase (base : List Char) : String :=
  ⟨if base.isEmpty then "unknown_doc".data else base⟩

/-- The page-number extraction on the already-computed `name_no_ext`:
`digitsRev`/`preRev` are the maximal digit suffix and the part before it
(both reversed).  No match (no trailing digit), or an empty remainder,
keeps the defaults `(name_no_ext, 1)`. -/
def parsePageSplit (nameNoExt : List Char) : List Char × Nat :=
  if (nameNoExt.reverse.takeWhile Char.isDigit).isEmpty then
    (nameNoExt, 1)
  else if (matchPotentialBase (nameNoExt.reverse.dropWhile Char.isDigit)).isEmpty then
    (nameNoExt, 1)
  else
    (stripWhile sepChar (matchPotentialBase (nameNoExt.reverse.dropWhile Char.isDigit)),
     natOfDigits (nameNoExt.reverse.takeWhile Char.isDigit).reverse)

/-- `src/utils.py:parse_filename_for_grouping`.  Returns `(base_name, page)`. -/
def parseFilenameForGrouping (filename : String) : String × Nat :=
  (finalizeBase (parsePageSplit (rsplitNoExt (pathName filename))).1,
   (parsePageSplit (rsplitNoExt (pathName filename))).2)

/-! ## JSON values and Python dict semantics -/

/-- A parsed JSON value, as produced by `json.loads` and handed around the
pipeline as Python objects. -/
inductive JsonVal where
  | null
  | bool (b : Bool)
  | num (q : ℚ)
  | str (s : String)
  | arr (elems : List JsonVal)
  | obj (fields : List (String × JsonVal))

/-- A Python dict holding JSON data: an association list with dict semantics. -/
abbrev JsonObj := List (String × JsonVal)

/-- Python truthiness of a JSON value (`None`, `False`, `0`, `""`, `[]`, `{}`
are falsy). -/
def JsonVal.truthy : JsonVal → Bool
  | .null => false
  | .bool b => b
  | .num q => decide (q ≠ 0)
  | .str s => s ≠ ""
  | .arr l => !l.isEmpty
  | .obj f => !f.isEmpty

/-- Rendering of a JSON value by Python's `str()` inside an f-string.  The
exact rendering of non-string values is a model of `str()`; no claim below
depends on it — only on the f-string structure around it. -/
def JsonVal.pyStr : JsonVal → String
  | .null => "None"
  | .bool true => "True"
  | .bool false => "False"
  | .num q => toString q
  | .str s => s
  | .arr _ => "[...]"
  | .obj _ => "\x7b...\x7d"

/-- Is `v` the Python string `"UNKNOWN"`?  (Python `==` between a JSON value
and a string literal.) -/
def JsonVal.isUnknown : JsonVal → Bool
  | .str s => s = "UNKNOWN"
  | _ => false

/-- Python dict insert-or-replace (`d[k] = v`): a present key keeps its
position, an absent key is appended. -/
def insertCell : JsonObj → String → JsonVal → JsonObj
  | [], k, v => [(k, v)]
  | (k', v') :: rest, k, v =>
      if k' = k then (k', v) :: rest else (k', v') :: insertCell rest k v

/-! ## `processing._group_files_by_base_name`

Source: `src/processing.py`, lines 197–221.  A folder's contents are
modelled by the list of its filenames (all regular files).  The supported-file
regex `.*(\.pdf|\.png|\.jpg|\.jpeg)$` with `re.IGNORECASE` accepts exactly the
names whose lowercasing ends in a supported extension (filenames here contain
no newline, the only character `.` refuses).  `parse_filename_for_grouping`
raises no exception, so the `except` arm that skips a file is dead. -/

/-- `config.AppSettings.SUPPORTED_FILE_EXTENSIONS` (src/config.py, line 56). -/
def SUPPORTED_FILE_EXTENSIONS : List String := [".pdf", ".png", ".jpg", ".jpeg"]

/-- Does the filename pass the supported-extension filter of
`_group_files_by_base_name`? -/
def isSupportedDocFile (name : String) : Bool :=
  SUPPORTED_FILE_EXTENSIONS.any fun ext => ext.data.isSuffixOf (pyLower name).data

/-- One page entry of a document group: the file (by name) and its parsed
page number — the `{"path": ..., "page": ...}` dict of the source. -/
abbrev PageEntry := String × Nat

/-- `doc_groups[base_name].append(entry)` on the `defaultdict(list)`:
append to the existing key, else add the key (dicts preserve insertion
order, so a new key goes to the end). -/
def insertGroup (m : List (String × List PageEntry)) (b : String) (e : PageEntry) :
    List (String × List PageEntry) :=
  match m with
  | [] => [(b, [e])]
  | (k, v) :: rest =>
      if k = b then (k, v ++ [e]) :: rest else (k, v) :: insertGroup rest b e

/-- The page order used by `doc_groups[base_name].sort(key=lambda x: x["page"])`. -/
def pageLE (x y : PageEntry) : Prop := x.2 ≤ y.2

instance : DecidableRel pageLE := fun x y => Nat.decLe x.2 y.2

/-- The body of the grouping loop: skip unsupported files, append the rest
to their parsed base name's group. -/
def addFileToGroups (m : List (String × List PageEntry)) (f : String) :
    List (String × List PageEntry) :=
  if isSupportedDocFile f then
    insertGroup m (parseFilenameForGrouping f).1 (f, (parseFilenameForGrouping f).2)
  else m

/-- `src/processing.py:_group_files_by_base_name`, on a folder given by its
list of filenames. -/
def groupFilesByBaseName (files : List String) : List (String × List PageEntry) :=
  (files.foldl addFileToGroups []).map fun g => (g.1, List.insertionSort pageLE g.2)

/-- The members of group `b` (the dict entry), `[]` when absent. -/
def groupMembers (files : List String) (b : String) : List PageEntry :=
  ((groupFilesByBaseName files).lookup b).getD []

/-! ## `processing._call_vertex_ai_with_retry`

Source: `src/processing.py`, lines 61–121.  The external call is an oracle
`call : Nat → CallResult α` giving the outcome of the (0-based) n-th
attempt.  Exceptions are modelled by the `CallResult`/`RetryResult`
constructors: `transient` for the four retryable Google API errors,
`fatal` for everything else (re-raised at once). -/

/-- Outcome of one underlying `model.generate_content` call. -/
inductive CallResult (α : Type) where
  | success (a : α)
  | transient (e : String)
  | fatal (e : String)

/-- What the retry wrapper does in the end. -/
inductive RetryResult (α : Type) where
  | ok (a : α)
  | raisedTransient (e : String)   -- budget exhausted: last retryable error re-raised
  | raisedFatal (e : String)       -- non-retryable error re-raised immediately
deriving DecidableEq

/-- The `while True` loop of `_call_vertex_ai_with_retry`, with the number of
calls performed.  `budget` is `max_retries - num_retries` on entry, so the
loop is entered with `budget = max_retries`; a transient failure with
`budget = 0` means `num_retries > max_retries`, which re-raises the last
error.  Returns (result, number of `generate_content` calls made). -/
def retryLoop (call : Nat → CallResult α) (budget idx : Nat) : RetryResult α × Nat :=
  match call idx, budget with
  | .success a, _ => (.ok a, 1)
  | .fatal e, _ => (.raisedFatal e, 1)
  | .transient e, 0 => (.raisedTransient e, 1)
  | .transient _, b + 1 =>
      let r := retryLoop call b (idx + 1)
      (r.1, r.2 + 1)

/-- `src/processing.py:_call_vertex_ai_with_retry` (with its result and call
count; delays are modelled separately below). -/
def callVertexAIWithRetry (call : Nat → CallResult α) (maxRetries : Nat := 5) :
    RetryResult α × Nat :=
  retryLoop call maxRetries 0

/-- The spec's `max_attempts` retry budget: the wrapper's own log line
`Attempt {num_retries + 1}/{max_retries + 1}` names the total attempt
budget, `max_retries + 1`. -/
def maxAttempts (maxRetries : Nat) : Nat := maxRetries + 1

/-! ### The backoff delays

Lines 86, 109–117: `delay` starts at `initial_delay` and is multiplied by
`exponential_base` after each sleep, so the (0-based) n-th sleep — the one
between attempts n and n+1 — uses un-jittered delay
`initial_delay * base ^ n`.  With `jitter=True` the actual sleep adds
`random.uniform(0, delay * 0.25)`, modelled by an oracle `jit n` subject to
the uniform bounds.  There is no cap applied anywhere. -/

/-- The `delay` variable before the n-th sleep (0-based). -/
def retryDelay (initialDelay base : ℚ) : Nat → ℚ
  | 0 => initialDelay
  | n + 1 => retryDelay initialDelay base n * base

/-- The duration actually slept before attempt `n + 1`:
`actual_delay = delay (+ jitter)`. -/
def actualSleep (initialDelay base : ℚ) (jitter : Bool) (jit : Nat → ℚ) (n : Nat) : ℚ :=
  retryDelay initialDelay base n + (if jitter then jit n else 0)

/-! ## `processing._parse_vertex_json_response`

Source: `src/processing.py`, lines 154–194.  A transport-successful
response is modelled by whether it carries usable text
(`hasattr(response, 'text') and response.text` truthy) and, for the
text-less case, whether `response.candidates` is non-empty with an empty
`content.parts` (the content-blocked signal, carrying the finish reason and
the stringified safety ratings).  The `AttributeError`/generic `except`
arms guard against SDK surprises outside this model.  `json.loads` is the
abstract `decode` parameter. -/

/-- A Vertex AI response as far as the parser inspects it. -/
structure VertexResponse where
  /-- `response.text` when the attribute exists (`""` is falsy). -/
  text : Option String
  /-- `(finish_reason, str(safety_ratings))` when `response.candidates` is
  non-empty and `candidates[0].content.parts` is empty. -/
  blocked : Option (String × String)

/-- The dict returned by `_parse_vertex_json_response`, one constructor per
`return` statement. -/
inductive ParseOutcome where
  | blocked (reason ratings : String)     -- \x7b"error": "Content Blocked: ...", "safety_ratings": ...\x7d
  | emptyResponse                          -- \x7b"error": "Empty or invalid response object"\x7d
  | invalidStructure (raw : String)        -- \x7b"error": "Invalid JSON structure", "raw_response": raw\x7d
  | decodeError (rawText : String)         -- \x7b"error": "JSON Decode Error", "raw_response": response.text\x7d
  | ok (o : JsonObj)                       -- the parsed JSON object, returned verbatim

/-- The fence-stripping step (lines 168–173): remove a leading
` ```json `/` ``` ` fence by slicing off 7 (resp. 3) leading and 3 trailing
characters, then strip again. -/
def stripFences (raw : String) : String :=
  if pyStartsWith raw "```json" then pyStrip (pySlice raw 7 3)
  else if pyStartsWith raw "```" then pyStrip (pySlice raw 3 3)
  else raw

/-- `src/processing.py:_parse_vertex_json_response`. -/
def parseVertexJsonResponse (decode : String → Option JsonObj) (resp : VertexResponse) :
    ParseOutcome :=
  let noText : ParseOutcome :=
    match resp.blocked with
    | some (reason, ratings) => .blocked reason ratings
    | none => .emptyResponse
  match resp.text with
  | none => noText
  | some t =>
    if t = "" then noText
    else
      let raw := stripFences (pyStrip t)
      if pyStartsWith raw "\x7b" && pyEndsWith raw "\x7d" then
        match decode raw with
        | some o => .ok o
        | none => .decodeError t
      else .invalidStructure raw

/-- Does the dict returned by the parser contain the key `"error"`?
(The orchestrator's success test is `"error" not in class_result`.) -/
def ParseOutcome.hasErrorKey : ParseOutcome → Bool
  | .ok o => (o.lookup "error").isSome
  | _ => true

/-! ## `processing._classify_document_type`

Source: `src/processing.py`, lines 223–267.  The prompt text and the binary
page payloads do not influence the contract verified here; the transport is
an oracle: either a response object, or a raised `GoogleAPIError`, or any
other exception. -/

/-- Outcome of the guarded Vertex AI call inside `_classify_document_type`. -/
inductive TransportOutcome where
  | response (resp : VertexResponse)
  | googleApiError (msg : String)
  | otherError (msg : String)

/-- The dict returned by `_classify_document_type`, one constructor per
`return`. -/
inductive ClassifyResult where
  | noFiles                         -- \x7b"error": "No document files provided"\x7d
  | prepFailed                      -- \x7b"error": "Failed to prepare document parts"\x7d
  | apiError (msg : String)         -- \x7b"error": "Vertex AI API Error: ..."\x7d
  | unexpected (msg : String)       -- \x7b"error": "Unexpected Error: ..."\x7d
  | parsed (p : ParseOutcome)       -- whatever `_parse_vertex_json_response` returned

/-- `src/processing.py:_classify_document_type`.  `documentFiles` is the
group's page list; `prepOk` is whether `_prepare_document_parts` succeeded
(it returns `None` on file I/O errors). -/
def classifyDocumentType (decode : String → Option JsonObj) (documentFiles : List PageEntry)
    (prepOk : Bool) (transport : TransportOutcome) : ClassifyResult :=
  if documentFiles.isEmpty then .noFiles
  else if !prepOk then .prepFailed
  else
    match transport with
    | .response resp => .parsed (parseVertexJsonResponse decode resp)
    | .googleApiError m => .apiError m
    | .otherError m => .unexpected m

/-- Does the dict returned by `_classify_document_type` contain `"error"` —
i.e. is the group counted as a classification failure downstream? -/
def ClassifyResult.hasErrorKey : ClassifyResult → Bool
  | .parsed p => p.hasErrorKey
  | _ => true

/-! ## `processing.process_zip_file`, steps 2–5

Source: `src/processing.py`, lines 355–513.  Zip extraction (step 1) and
Excel serialization (step 6) are I/O boundaries outside the claims.  The
extracted zip is modelled by `cases : List (String × List String)` — one
entry per case folder (its name and the filenames inside); the filesystem
guarantees distinct folder names, which theorems carry as a `Nodup`
hypothesis.  The two result dictionaries are keyed by `(case_id, base_name)`
and written once per key, so they are modelled by oracles
`classOracle` / `extractOracle`: the dict produced for that key by
`_classify_document_type` / `_extract_data_from_document` (or by the
`except` arm around `future.result()`) — every such value is a dict.
Iteration over `classification_results` is in task-submission order (the
real order, completion order, is a permutation of it and no claim below
depends on it). -/

/-- One output row (a Python dict). -/
abbrev Row := JsonObj

/-- A queued extraction task `(case_id, base_name, document_files, classified_type,
fields_to_extract)` — document files are re-looked-up where needed. -/
structure ExtTask where
  caseId : String
  baseName : String
  ctype : String
  fields : List (String × String)

/-- `initial_groups`: `{case_id: _group_files_by_base_name(folder)}`. -/
def initialGroups (cases : List (String × List String)) :
    List (String × List (String × List PageEntry)) :=
  cases.map fun cf => (cf.1, groupFilesByBaseName cf.2)

/-- `initial_groups.get(case_id, {}).get(base_name)` (line 415). -/
def lookupDocumentFiles (cases : List (String × List String)) (c b : String) :
    Option (List PageEntry) :=
  (((initialGroups cases).lookup c).getD []).lookup b

/-- The keys of the classification tasks, in submission order: every group
with a non-empty file list, across cases (lines 381–384). -/
def classTaskKeys (cases : List (String × List String)) : List (String × String) :=
  cases.flatMap fun cf =>
    ((groupFilesByBaseName cf.2).filter fun g => !g.2.isEmpty).map fun g => (cf.1, g.1)

/-- The status string of the UNKNOWN / unconfigured / not-classified arm
(lines 433–436): a base `Classification result:` status, overridden for
`"UNKNOWN"` and for any other truthy classified type. -/
def unknownStatus (ct : Option JsonVal) : String :=
  match ct with
  | some v =>
      if v.isUnknown then "Classified as UNKNOWN"
      else if v.truthy then "Classified as '" ++ v.pyStr ++ "' (Unsupported/Not Configured)"
      else "Classification result: Not Classified"
  | none => "Classification result: Not Classified"

/-- What step 4 (lines 406–453) does with one classification result: queue
an extraction task, emit a result row directly, or — in the logged
`Logic Error` arm where the group's files cannot be found again — do
neither. -/
inductive Step4Decision where
  | row (r : Row)
  | task (t : ExtTask)
  | dropped

/-- The test
`classified_type and classified_type != "UNKNOWN" and classified_type in DOCUMENT_FIELDS`
(line 411) together with the `DOCUMENT_FIELDS[classified_type]` lookup: it
succeeds exactly for a present string value that is non-empty (truthiness),
not `"UNKNOWN"`, and a key of `DOCUMENT_FIELDS` (`in` on a dict with string
keys is false for every non-string value). -/
def knownFieldType (docFields : List (String × List (String × String)))
    (ct : Option JsonVal) : Option (String × List (String × String)) :=
  match ct with
  | some (.str s) =>
      if s ≠ "" && s ≠ "UNKNOWN" then (docFields.lookup s).map (fun fl => (s, fl))
      else none
  | _ => none

/-- A step-4 row carrying classification details (the dict literals of
lines 423–430 and 438–445). -/
def classifiedRow (c b : String) (ctypeCell : JsonVal) (classResult : JsonObj)
    (status : String) : Row :=
  [("CASE_ID", .str c), ("GROUP_Basename", .str b),
   ("CLASSIFIED_Type", ctypeCell),
   ("CLASSIFICATION_Confidence", (classResult.lookup "confidence").getD .null),
   ("CLASSIFICATION_Reasoning", (classResult.lookup "reasoning").getD .null),
   ("Processing_Status", .str status)]

/-- The classification-failure row (lines 449–453). -/
def classFailRow (c b : String) (classResult : JsonObj) : Row :=
  [("CASE_ID", .str c), ("GROUP_Basename", .str b),
   ("Processing_Status", .str ("Classification Failed: " ++
     (((classResult.lookup "error").map JsonVal.pyStr).getD
       "Unknown classification error")))]

/-- The body of the step-4 loop for the key `(c, b)` with classification
result `classResult`. -/
def step4Decision (docFields : List (String × List (String × String)))
    (cases : List (String × List String)) (classResult : JsonObj) (c b : String) :
    Step4Decision :=
  if (classResult.lookup "error").isNone then
    match knownFieldType docFields (classResult.lookup "classified_type") with
    | some (s, fieldsToExtract) =>
        if !fieldsToExtract.isEmpty then
          match lookupDocumentFiles cases c b with
          | some df => if !df.isEmpty then .task ⟨c, b, s, fieldsToExtract⟩ else .dropped
          | none => .dropped
        else
          .row (classifiedRow c b (.str s) classResult
            "Extraction skipped - No fields configured")
    | none =>
        .row (classifiedRow c b ((classResult.lookup "classified_type").getD .null)
          classResult (unknownStatus (classResult.lookup "classified_type")))
  else
    .row (classFailRow c b classResult)

/-- The `extraction_tasks` list (submission order). -/
def extractionTasks (docFields : List (String × List (String × String)))
    (classOracle : String → String → JsonObj) (cases : List (String × List String)) :
    List ExtTask :=
  (classTaskKeys cases).filterMap fun k =>
    match step4Decision docFields cases (classOracle k.1 k.2) k.1 k.2 with
    | .task t => some t
    | _ => none

/-- The rows appended directly during step 4. -/
def step4Rows (docFields : List (String × List (String × String)))
    (classOracle : String → String → JsonObj) (cases : List (String × List String)) :
    List Row :=
  (classTaskKeys cases).filterMap fun k =>
    match step4Decision docFields cases (classOracle k.1 k.2) k.1 k.2 with
    | .row r => some r
    | _ => none

/-- The `row_data` dict literal of lines 483–489. -/
def baseRowData (c b ctype : String) (classResult : JsonObj) : Row :=
  [("CASE_ID", .str c), ("GROUP_Basename", .str b),
   ("CLASSIFIED_Type", .str ctype),
   ("CLASSIFICATION_Confidence", (classResult.lookup "confidence").getD .null),
   ("CLASSIFICATION_Reasoning", (classResult.lookup "reasoning").getD .null)]

/-- One iteration of the flattening loop (lines 494–506) for field `fd`:
a dict-shaped field value adds the three namespaced cells; anything else
(including a missing field, Python `None`) adds a `_Raw` cell and downgrades
the status to partially-successful. -/
def flattenField (ctype : String) (er : JsonObj) (row : Row) (fd : String × String) : Row :=
  match er.lookup fd.1 with
  | some (.obj fieldData) =>
      insertCell
        (insertCell
          (insertCell row (ctype ++ "_" ++ fd.1 ++ "_Value")
            ((fieldData.lookup "value").getD .null))
          (ctype ++ "_" ++ fd.1 ++ "_Confidence")
          ((fieldData.lookup "confidence").getD .null))
        (ctype ++ "_" ++ fd.1 ++ "_Reasoning")
        ((fieldData.lookup "reasoning").getD .null)
  | other =>
      insertCell
        (insertCell row (ctype ++ "_" ++ fd.1 ++ "_Raw")
          (.str (match other with | some v => v.pyStr | none => "None")))
        "Processing_Status" (.str "Extraction Partially Successful (Format Issue)")

/-- The aggregation body of step 5 (lines 477–513) for one extraction task.
`extractionResult` is `extraction_results_map.get(key)` (`none` would mean a
missing key). -/
def buildExtractionRow (c b ctype : String) (fields : List (String × String))
    (classResult : JsonObj) (extractionResult : Option JsonObj) : Row :=
  match extractionResult with
  | some er =>
    if (er.lookup "error").isNone then
      fields.foldl (flattenField ctype er)
        (insertCell (baseRowData c b ctype classResult) "Processing_Status"
          (.str "Extraction Successful"))
    else
      insertCell (baseRowData c b ctype classResult) "Processing_Status"
        (.str ("Extraction Failed: " ++
          (((er.lookup "error").map JsonVal.pyStr).getD "Unknown extraction error")))
  | none =>
      insertCell (baseRowData c b ctype classResult) "Processing_Status"
        (.str "Extraction Failed: Invalid extraction result")

/-- The row appended for a case with no processable document groups
(lines 369–373). -/
def naRow (caseId : String) : Row :=
  [("CASE_ID", JsonVal.str caseId), ("GROUP_Basename", JsonVal.str "N/A"),
   ("Processing_Status", JsonVal.str "No processable document files found")]

/-- The per-case no-group rows, in case order. -/
def naRows (cases : List (String × List String)) : List Row :=
  (cases.filter fun cf => (groupFilesByBaseName cf.2).isEmpty).map fun cf => naRow cf.1

/-- The rows appended during aggregation (step 5), one per extraction task. -/
def step5Rows (docFields : List (String × List (String × String)))
    (classOracle : String → String → JsonObj)
    (extractOracle : String → String → String → List (String × String) → JsonObj)
    (cases : List (String × List String)) : List Row :=
  (extractionTasks docFields classOracle cases).map fun t =>
    buildExtractionRow t.caseId t.baseName t.ctype t.fields
      (classOracle t.caseId t.baseName)
      (some (extractOracle t.caseId t.baseName t.ctype t.fields))

/-- `process_zip_file`, steps 2–5: the `final_results_list` handed to the
DataFrame.  Appended in source order: the per-case `No processable document
files found` rows (during grouping), then the step-4 rows, then the step-5
rows. -/
def processCore (docFields : List (String × List (String × String)))
    (classOracle : String → String → JsonObj)
    (extractOracle : String → String → String → List (String × String) → JsonObj)
    (cases : List (String × List String)) : List Row :=
  naRows cases ++ step4Rows docFields classOracle cases ++
    step5Rows docFields classOracle extractOracle cases

/-! ## General helper lemmas -/

theorem stringMkData (s : String) : (⟨s.data⟩ : String) = s := by
  cases s
  rfl

theorem stringDataInj {s t : String} (h : s.data = t.data) : s = t := by
  cases s
  cases t
  exact congrArg String.mk h

/-- The retry loop, with every attempt up to the budget failing transiently:
the loop makes `budget + 1` calls and re-raises the transient error of the
last attempt. -/
theorem retryLoop_all_transient (call : Nat → CallResult α) :
    ∀ budget idx, (∀ i, i ≤ budget → ∃ e, call (idx + i) = .transient e) →
      ∃ e, call (idx + budget) = .transient e ∧
        retryLoop call budget idx = (.raisedTransient e, budget + 1) := by
  intro budget
  induction budget with
  | zero =>
      intro idx h
      obtain ⟨e, he⟩ := h 0 le_rfl
      simp only [Nat.add_zero] at he
      refine ⟨e, by simpa using he, ?_⟩
      rw [retryLoop.eq_def, he]
  | succ b ih =>
      intro idx h
      obtain ⟨e₀, he₀⟩ := h 0 (Nat.zero_le _)
      simp only [Nat.add_zero] at he₀
      obtain ⟨e, he, hr⟩ := ih (idx + 1) (fun i hi => by
        obtain ⟨e', he'⟩ := h (i + 1) (by omega)
        exact ⟨e', by rw [show idx + 1 + i = idx + (i + 1) by omega]; exact he'⟩)
      refine ⟨e, by rw [show idx + (b + 1) = idx + 1 + b by omega]; exact he, ?_⟩
      rw [retryLoop.eq_def, he₀]
      simp [hr]

/-- The retry loop, with attempt `j` (0-based, `j` within the budget)
succeeding after `j` transient failures: the loop makes `j + 1` calls and
returns the success. -/
theorem retryLoop_success (call : Nat → CallResult α) :
    ∀ j budget idx a, call (idx + j) = .success a →
      (∀ i, i < j → ∃ e, call (idx + i) = .transient e) → j ≤ budget →
      retryLoop call budget idx = (.ok a, j + 1) := by
  intro j
  induction j with
  | zero =>
      intro budget idx a hs _ _
      simp only [Nat.add_zero] at hs
      rw [retryLoop.eq_def, hs]
  | succ n ih =>
      intro budget idx a hs ht hb
      obtain ⟨e₀, he₀⟩ := ht 0 (Nat.succ_pos n)
      simp only [Nat.add_zero] at he₀
      obtain ⟨b, rfl⟩ : ∃ b, budget = b + 1 := ⟨budget - 1, by omega⟩
      have hrec := ih b (idx + 1) a
        (by rw [show idx + 1 + n = idx + (n + 1) by omega]; exact hs)
        (fun i hi => by
          obtain ⟨e', he'⟩ := ht (i + 1) (by omega)
          exact ⟨e', by rw [show idx + 1 + i = idx + (i + 1) by omega]; exact he'⟩)
        (by omega)
      rw [retryLoop.eq_def, he₀]
      simp [hrec]

/-- The `delay` variable in closed form: `initial_delay * base ^ n` before
the n-th sleep. -/
theorem retryDelay_closed (initial base : ℚ) : ∀ n, retryDelay initial base n = initial * base ^ n := by
  intro n
  induction n with
  | zero => simp [retryDelay]
  | succ k ih => rw [retryDelay, ih, pow_succ, mul_assoc]

/-! ## Claim C3 — retry attempt budget -/

/-- **C3.**  With the retry budget `max_attempts = max_retries + 1` of the
spec's RetryingClient (the wrapper's own attempt counter,
`Attempt {num_retries+1}/{max_retries+1}`): if every invocation raises a
retryable (Transient) error, `_call_vertex_ai_with_retry` performs exactly
`max_attempts` calls and then re-raises the error of the last attempt (the
terminal failure embeds the last underlying error); if the call succeeds on
attempt `k ≤ max_attempts` (`k = j + 1` below, 1-based), exactly `k` calls
are made and no further attempts occur. -/
theorem retry_attempt_budget (call : Nat → CallResult α) (maxRetries : Nat) :
    ((∀ i, ∃ e, call i = .transient e) →
      ∃ e, call maxRetries = .transient e ∧
        callVertexAIWithRetry call maxRetries =
          (.raisedTransient e, maxAttempts maxRetries)) ∧
    (∀ j a, call j = .success a → (∀ i, i < j → ∃ e, call i = .transient e) →
      j + 1 ≤ maxAttempts maxRetries →
      callVertexAIWithRetry call maxRetries = (.ok a, j + 1)) := by
  constructor
  · intro h
    obtain ⟨e, he, hr⟩ := retryLoop_all_transient call maxRetries 0
      (fun i _ => by simpa using h i)
    exact ⟨e, by simpa using he, by simpa [callVertexAIWithRetry, maxAttempts] using hr⟩
  · intro j a hs ht hj
    have := retryLoop_success call j maxRetries 0 a (by simpa using hs)
      (fun i hi => by simpa using ht i hi) (by simpa [maxAttempts] using hj)
    simpa [callVertexAIWithRetry] using this

/-- Witness for C3 at concrete inputs: an always-transient stub makes
`maxAttempts 2 = 3` calls; a stub succeeding on attempt 2 makes 2 calls. -/
theorem retry_attempt_budget_witness :
    callVertexAIWithRetry (fun _ => CallResult.transient (α := Unit) "rate limited") 2 =
      (.raisedTransient "rate limited", maxAttempts 2) ∧
    callVertexAIWithRetry
      (fun i => if i < 1 then CallResult.transient (α := Unit) "rate limited"
                else .success ()) 2 = (.ok (), 2) := by
  constructor
  · obtain ⟨e, he, hr⟩ :=
      (retry_attempt_budget (fun _ => CallResult.transient (α := Unit) "rate limited") 2).1
        (fun i => ⟨"rate limited", rfl⟩)
    have he' : CallResult.transient (α := Unit) "rate limited" = .transient e := he
    obtain rfl : "rate limited" = e := by injection he'
    exact hr
  · exact (retry_attempt_budget _ 2).2 1 () rfl
      (fun i hi => ⟨"rate limited", by
        obtain rfl : i = 0 := by omega
        rfl⟩) (by norm_num [maxAttempts])

/-! ## Claim C4 — backoff formula -/

/-- **C4, counterexample.**  The claim asserts the un-jittered delay before
attempt `n+1` is `min(max_delay, initial_delay * base^n)` for some fixed
`max_delay`.  With the code's own defaults (`initial_delay = 1.0`,
`exponential_base = 2.0`) no fixed cap satisfies this: the delay sequence
`retryDelay 1 2` is exactly `2^n`, which outgrows every candidate cap. -/
theorem backoff_cap_counterexample :
    ¬ ∃ M : ℚ, ∀ n : Nat, retryDelay 1 2 n = min M (1 * 2 ^ n) := by
  rintro ⟨M, hM⟩
  obtain ⟨N, hN⟩ := exists_nat_gt M
  have h2 : (N : ℚ) < 2 ^ N := by
    have := Nat.lt_two_pow N
    exact_mod_cast this
  have hM2 : M < 2 ^ N := hN.trans h2
  have hd : retryDelay 1 2 N = 2 ^ N := by rw [retryDelay_closed]; ring
  have h := hM N
  rw [hd, one_mul, min_eq_left hM2.le] at h
  exact hM2.ne' h

/-- **C4, amended.**  The sleep before attempt `n+1` (0-based attempt `n`) is
`initial_delay * base^n` — with no `max_delay` cap anywhere — plus, when
jitter is enabled, `random.uniform(0, delay * 0.25)`; so the actual sleep
lies in `[delay, delay * 1.25]` (for the non-negative delays of real runs)
and with jitter disabled equals the un-jittered delay exactly. -/
theorem backoff_formula (initial base : ℚ) (jit : Nat → ℚ) (n : Nat)
    (h0 : 0 ≤ jit n) (h1 : jit n ≤ retryDelay initial base n * (25 / 100)) :
    retryDelay initial base n = initial * base ^ n ∧
    actualSleep initial base true jit n = initial * base ^ n + jit n ∧
    initial * base ^ n ≤ actualSleep initial base true jit n ∧
    actualSleep initial base true jit n ≤ (initial * base ^ n) * (125 / 100) ∧
    actualSleep initial base false jit n = initial * base ^ n := by
  have hc := retryDelay_closed initial base n
  have hs : actualSleep initial base true jit n = initial * base ^ n + jit n := by
    simp [actualSleep, hc]
  rw [hc] at h1
  refine ⟨hc, hs, ?_, ?_, by simp [actualSleep, hc]⟩
  · rw [hs]
    linarith
  · rw [hs]
    linarith

/-- Witness for C4's amended theorem at `initial_delay = 1`, `base = 2`,
`n = 3`, zero jitter sample. -/
theorem backoff_formula_witness :
    retryDelay 1 2 3 = 1 * 2 ^ 3 ∧
    actualSleep 1 2 true (fun _ => 0) 3 = 1 * 2 ^ 3 + 0 := by
  have h := backoff_formula 1 2 (fun _ => 0) 3 le_rfl
    (by rw [retryDelay_closed]; norm_num)
  exact ⟨h.1, h.2.1⟩

/-! ### String helper lemmas for the response parser -/

theorem pyStartsWith_iff {s p : String} : pyStartsWith s p = true ↔ p.data <+: s.data := by
  rw [pyStartsWith]
  exact List.isPrefixOf_iff_prefix

/-- A list whose first and last characters fail `p` is unchanged by
`stripWhile p`. -/
theorem stripWhile_eq_self_of (p : Char → Bool) (l : List Char)
    (h1 : ∀ c, l.head? = some c → p c = false)
    (h2 : ∀ c, l.getLast? = some c → p c = false) :
    stripWhile p l = l := by
  unfold stripWhile
  have d1 : l.dropWhile p = l := by
    cases l with
    | nil => rfl
    | cons c r => rw [List.dropWhile_cons, if_neg (by simp [h1 c rfl])]
  rw [d1]
  have d2 : l.reverse.dropWhile p = l.reverse := by
    cases hrev : l.reverse with
    | nil => rfl
    | cons c r =>
        have hc : l.getLast? = some c := by rw [← List.head?_reverse, hrev]; rfl
        rw [List.dropWhile_cons, if_neg (by simp [h2 c hc])]
  rw [d2, List.reverse_reverse]

/-- `stripWhile` keeps the head of a list whose head fails `p`. -/
theorem stripWhile_cons_head (p : Char → Bool) (c : Char) (r : List Char) (h : p c = false) :
    (stripWhile p (c :: r)).head? = some c := by
  unfold stripWhile
  rw [List.dropWhile_cons, if_neg (by simp [h])]
  rw [show (c :: r).reverse = r.reverse ++ [c] from by simp]
  rw [List.dropWhile_append]
  split
  · rw [List.dropWhile_cons, if_neg (by simp [h])]
    rfl
  · simp

/-- The first character of a string with a `pyStartsWith` witness. -/
theorem head_of_pyStartsWith {s p : String} {c : Char} {rest : List Char}
    (hpd : p.data = c :: rest) (h : pyStartsWith s p = true) :
    s.data.head? = some c := by
  obtain ⟨u, hu⟩ := pyStartsWith_iff.mp h
  rw [← hu, hpd]
  rfl

/-- A string whose strip starts with `"\x7b"` is non-empty. -/
theorem ne_empty_of_strip_braced {s : String}
    (h : pyStartsWith (pyStrip s) "\x7b" = true) : s ≠ "" := by
  intro he
  subst he
  exact absurd h (by decide)

/-- A string whose strip starts with `"\x7b"` has a non-whitespace,
non-backtick, non-`j` first relevant character: its own head, if any,
either is whitespace or equals `'\x7b'`. -/
theorem head_brace_of_strip {s : String} {c : Char} {r : List Char}
    (hd : s.data = c :: r) (hc : pySpace c = false)
    (h : pyStartsWith (pyStrip s) "\x7b" = true) : c = '\x7b' := by
  have h1 : (pyStrip s).data.head? = some '\x7b' := head_of_pyStartsWith rfl h
  have h2 : (pyStrip s).data.head? = some c := by
    show (stripWhile pySpace s.data).head? = some c
    rw [hd]
    exact stripWhile_cons_head pySpace c r hc
  rw [h1] at h2
  exact (Option.some.inj h2).symm

/-- A braced strip is not fence-prefixed: helper giving the contradiction
from any fence prefix on `pyStrip s`. -/
theorem strip_braced_not_fenced {s p : String} {c : Char} {rest : List Char}
    (hpd : p.data = c :: rest) (hc : c ≠ '\x7b')
    (hb : pyStartsWith (pyStrip s) "\x7b" = true) :
    pyStartsWith (pyStrip s) p = false := by
  by_contra h
  rw [Bool.not_eq_false] at h
  have h1 := head_of_pyStartsWith hpd h
  have h2 := head_of_pyStartsWith (p := "\x7b") rfl hb
  rw [h1] at h2
  exact hc (Option.some.inj h2)

/-- On a string whose strip is brace-delimited, `stripFences` after
stripping is the identity. -/
theorem stripFences_of_braced {s : String}
    (hb : pyStartsWith (pyStrip s) "\x7b" = true) :
    stripFences (pyStrip s) = pyStrip s := by
  unfold stripFences
  rw [strip_braced_not_fenced (p := "```json") rfl (by decide) hb]
  rw [strip_braced_not_fenced (p := "```") rfl (by decide) hb]
  simp

/-- Unfolding of the parser on a response with non-empty text. -/
theorem parse_unfold (decode : String → Option JsonObj) (blocked) (t : String) (hne : t ≠ "") :
    parseVertexJsonResponse decode ⟨some t, blocked⟩ =
      (if pyStartsWith (stripFences (pyStrip t)) "\x7b" &&
          pyEndsWith (stripFences (pyStrip t)) "\x7d" then
        match decode (stripFences (pyStrip t)) with
        | some o => .ok o
        | none => .decodeError t
      else .invalidStructure (stripFences (pyStrip t))) := by
  show (if t = "" then _ else _) = _
  rw [if_neg hne]

/-- The parser on a transport-successful response whose stripped text is
brace-delimited, decodable and unfenced. -/
theorem parse_of_plain (decode : String → Option JsonObj) (blocked) (s : String) (obj : JsonObj)
    (hb1 : pyStartsWith (pyStrip s) "\x7b" = true)
    (hb2 : pyEndsWith (pyStrip s) "\x7d" = true)
    (hdec : decode (pyStrip s) = some obj) :
    parseVertexJsonResponse decode ⟨some s, blocked⟩ = .ok obj := by
  rw [parse_unfold decode blocked s (ne_empty_of_strip_braced hb1),
    stripFences_of_braced hb1, hb1, hb2, hdec]
  rfl

/-- `pySlice` removing an exact literal prefix of length `n` and the
trailing three backticks. -/
theorem pySlice_fences (pre inner : String) (n : Nat) (hn : pre.data.length = n) :
    pySlice (pre ++ inner ++ "```") n 3 = inner := by
  apply stringDataInj
  show (((pre ++ inner ++ "```").data.drop n).reverse.drop 3).reverse = inner.data
  rw [String.data_append, String.data_append, List.append_assoc, ← hn, List.drop_left]
  rw [List.reverse_append]
  rw [show (3 : Nat) = (("```" : String).data.reverse).length from rfl, List.drop_left]
  rw [List.reverse_reverse]

/-- A fenced string strips to itself (backticks are not whitespace). -/
theorem pyStrip_fenced (pre inner : String) (hpre : pre.data.head? = some '`') :
    pyStrip (pre ++ inner ++ "```") = pre ++ inner ++ "```" := by
  have hd : (pre ++ inner ++ "```").data = pre.data ++ (inner.data ++ ("```" : String).data) := by
    rw [String.data_append, String.data_append, List.append_assoc]
  apply stringDataInj
  show stripWhile pySpace (pre ++ inner ++ "```").data = (pre ++ inner ++ "```").data
  apply stripWhile_eq_self_of
  · intro c hc
    rw [hd] at hc
    obtain ⟨pr, hp⟩ : ∃ pr, pre.data = '`' :: pr := by
      cases hpd : pre.data with
      | nil => rw [hpd] at hpre; exact absurd hpre (by simp)
      | cons a b =>
          rw [hpd] at hpre
          have ha : a = '`' := Option.some.inj hpre
          exact ⟨b, by rw [ha]⟩
    rw [hp] at hc
    have h' : some '`' = some c := hc
    rw [← Option.some.inj h']
    rfl
  · intro c hc
    rw [← List.head?_reverse, hd, List.reverse_append, List.reverse_append] at hc
    have h' : some '`' = some c := hc
    rw [← Option.some.inj h']
    rfl

/-- A fenced string is non-empty. -/
theorem fenced_ne_empty (pre inner : String) : pre ++ inner ++ "```" ≠ "" := by
  intro h
  have hd := congrArg String.data h
  rw [String.data_append, String.data_append] at hd
  have h2 := (List.append_eq_nil.mp hd).2
  exact absurd h2 (by decide)

/-- The fenced string starts with its fence. -/
theorem pyStartsWith_fence (pre inner : String) :
    pyStartsWith (pre ++ inner ++ "```") pre = true := by
  rw [pyStartsWith_iff, String.data_append, String.data_append, List.append_assoc]
  exact List.prefix_append _ _

/-- A bare-fenced string whose strip of the inner part is brace-delimited is
not ```` ```json ````-prefixed (the inner text cannot begin with `json`). -/
theorem bare_fence_not_json {inner : String}
    (hb1 : pyStartsWith (pyStrip inner) "\x7b" = true) :
    pyStartsWith ("```" ++ inner ++ "```") "```json" = false := by
  by_contra hcon
  rw [Bool.not_eq_false] at hcon
  obtain ⟨u, hu⟩ := pyStartsWith_iff.mp hcon
  rw [String.data_append, String.data_append, List.append_assoc] at hu
  have hsplit : ("```json" : String).data = ("```" : String).data ++ ("json" : String).data := rfl
  rw [hsplit, List.append_assoc] at hu
  have hu2 : ("json" : String).data ++ u = inner.data ++ ("```" : String).data :=
    List.append_cancel_left hu
  cases hid : inner.data with
  | nil =>
      rw [hid] at hu2
      have h' : some 'j' = some '`' := congrArg List.head? hu2
      exact absurd (Option.some.inj h') (by decide)
  | cons c0 r0 =>
      rw [hid] at hu2
      have h' : some 'j' = some c0 := congrArg List.head? hu2
      have hc0 : c0 = 'j' := (Option.some.inj h').symm
      have hsp : pySpace c0 = false := by rw [hc0]; rfl
      have h2 : (pyStrip inner).data.head? = some c0 := by
        show (stripWhile pySpace inner.data).head? = some c0
        rw [hid]
        exact stripWhile_cons_head pySpace c0 r0 hsp
      have h1 := head_of_pyStartsWith (p := "\x7b") rfl hb1
      rw [h1] at h2
      have hbrace := Option.some.inj h2
      rw [hc0] at hbrace
      exact absurd hbrace (by decide)

/-! ## Claim C10 — markdown fence tolerance -/

/-- **C10.**  For a transport-successful response whose text is a JSON object
(brace-delimited after stripping, decodable) wrapped in markdown fences —
leading ```` ```json ```` or ```` ``` ```` and trailing ```` ``` ```` — the
parser strips the fences and yields exactly the result of parsing the body
unfenced.  Classification and extraction share this parser
(`src/processing.py`, lines 259 and 316), so the tolerance applies
identically to both calls. -/
theorem fence_tolerance (decode : String → Option JsonObj) (blocked) (inner : String)
    (obj : JsonObj)
    (hb1 : pyStartsWith (pyStrip inner) "\x7b" = true)
    (hb2 : pyEndsWith (pyStrip inner) "\x7d" = true)
    (hdec : decode (pyStrip inner) = some obj) :
    parseVertexJsonResponse decode ⟨some ("```json" ++ inner ++ "```"), blocked⟩ = .ok obj ∧
    parseVertexJsonResponse decode ⟨some ("```" ++ inner ++ "```"), blocked⟩ = .ok obj ∧
    parseVertexJsonResponse decode ⟨some inner, blocked⟩ = .ok obj := by
  refine ⟨?_, ?_, parse_of_plain decode blocked inner obj hb1 hb2 hdec⟩
  · have hsf : stripFences ("```json" ++ inner ++ "```") = pyStrip inner := by
      unfold stripFences
      rw [if_pos (pyStartsWith_fence "```json" inner)]
      rw [pySlice_fences "```json" inner 7 rfl]
    rw [parse_unfold decode blocked _ (fenced_ne_empty "```json" inner),
      pyStrip_fenced "```json" inner rfl, hsf, hb1, hb2, hdec]
    rfl
  · have hsf : stripFences ("```" ++ inner ++ "```") = pyStrip inner := by
      unfold stripFences
      rw [if_neg (by simp [bare_fence_not_json hb1])]
      rw [if_pos (pyStartsWith_fence "```" inner)]
      rw [pySlice_fences "```" inner 3 rfl]
    rw [parse_unfold decode blocked _ (fenced_ne_empty "```" inner),
      pyStrip_fenced "```" inner rfl, hsf, hb1, hb2, hdec]
    rfl

/-- Witness for C10 at the concrete body `"\x7b\x7d"` (the empty JSON
object) and a decode stub agreeing with `json.loads` there. -/
theorem fence_tolerance_witness :
    parseVertexJsonResponse (fun s => if s = "\x7b\x7d" then some [] else none)
      ⟨some ("```json" ++ "\x7b\x7d" ++ "```"), none⟩ = .ok [] ∧
    parseVertexJsonResponse (fun s => if s = "\x7b\x7d" then some [] else none)
      ⟨some ("```" ++ "\x7b\x7d" ++ "```"), none⟩ = .ok [] := by
  have h := fence_tolerance (fun s => if s = "\x7b\x7d" then some [] else none) none
    "\x7b\x7d" [] (by decide) (by decide) (by rfl)
  exact ⟨h.1, h.2.1⟩

/-! ### List and character helpers for the filename-parser claims -/

theorem dropWhile_append_of_all {α} (p : α → Bool) (xs ys : List α)
    (h : ∀ x ∈ xs, p x = true) : (xs ++ ys).dropWhile p = ys.dropWhile p := by
  induction xs with
  | nil => rfl
  | cons a l ih =>
      rw [List.cons_append, List.dropWhile_cons, if_pos (h a (by simp))]
      exact ih (fun x hx => h x (by simp [hx]))

theorem dropWhile_cons_of_neg {α} (p : α → Bool) (a : α) (l : List α) (h : p a = false) :
    (a :: l).dropWhile p = a :: l := by
  rw [List.dropWhile_cons, if_neg (by simp [h])]

theorem takeWhile_cons_of_neg {α} (p : α → Bool) (a : α) (l : List α) (h : p a = false) :
    (a :: l).takeWhile p = [] := by
  rw [List.takeWhile_cons, if_neg (by simp [h])]

theorem takeWhile_append_of {α} (p : α → Bool) (xs ys : List α)
    (hxs : ∀ x ∈ xs, p x = true) (hys : ∀ c, ys.head? = some c → p c = false) :
    (xs ++ ys).takeWhile p = xs := by
  induction xs with
  | nil =>
      cases ys with
      | nil => rfl
      | cons c r => exact takeWhile_cons_of_neg p c r (hys c rfl)
  | cons a l ih =>
      rw [List.cons_append, List.takeWhile_cons, if_pos (hxs a (by simp)),
        ih (fun x hx => hxs x (by simp [hx]))]

theorem dropWhile_append_of {α} (p : α → Bool) (xs ys : List α)
    (hxs : ∀ x ∈ xs, p x = true) (hys : ∀ c, ys.head? = some c → p c = false) :
    (xs ++ ys).dropWhile p = ys := by
  rw [dropWhile_append_of_all p xs ys hxs]
  cases ys with
  | nil => rfl
  | cons c r => exact dropWhile_cons_of_neg p c r (hys c rfl)

/-- A decimal digit is unchanged by `Char.toLower`. -/
theorem isDigit_toLower_eq (c : Char) (h : c.isDigit = true) : c.toLower = c := by
  unfold Char.isDigit at h
  simp only [Bool.and_eq_true, decide_eq_true_eq] at h
  have h2 : c.toNat ≤ 57 := UInt32.toNat_le_of_le (by norm_num [UInt32.size]) h.2
  unfold Char.toLower
  rw [if_neg]
  intro hcon
  omega

/-- `startsWithPageRev` is false when the head's lowercasing is not `'e'`. -/
theorem startsWithPageRev_cons_false (c : Char) (xs : List Char) (h : ¬ c.toLower = 'e') :
    startsWithPageRev (c :: xs) = false := by
  unfold startsWithPageRev
  rcases xs with _ | ⟨g, _ | ⟨a, _ | ⟨p, rest⟩⟩⟩
  · rfl
  · rfl
  · rfl
  · simp [h]

/-- When the trailing characters fail `p`, `stripWhile` is just the leading
`dropWhile`. -/
theorem stripWhile_of_getLast (p : Char → Bool) (l : List Char)
    (h2 : ∀ c, l.getLast? = some c → p c = false) :
    stripWhile p l = l.dropWhile p := by
  unfold stripWhile
  rcases hdw : l.dropWhile p with _ | ⟨c, r⟩
  · rfl
  · obtain ⟨t, ht⟩ : ∃ t, t ++ (c :: r) = l := by
      obtain ⟨t, ht⟩ := List.dropWhile_suffix (l := l) p
      exact ⟨t, by rw [← hdw]; exact ht⟩
    obtain ⟨d, hd⟩ : ∃ d, (c :: r).getLast? = some d := by
      cases hg : (c :: r).getLast? with
      | none => exact absurd (List.getLast?_eq_none_iff.mp hg) (by simp)
      | some d => exact ⟨d, rfl⟩
    have hld : l.getLast? = some d := by
      rw [← ht, List.getLast?_append, hd]
      rfl
    have hpd : p d = false := h2 d hld
    rcases hrev : (c :: r).reverse with _ | ⟨e, s⟩
    · exact absurd hrev (by simp)
    · have hhead : some e = some d := by
        rw [← hd, ← List.head?_reverse, hrev]
        rfl
      have hpe : p e = false := by
        rw [Option.some.inj hhead]
        exact hpd
      rw [dropWhile_cons_of_neg p e s hpe, ← hrev, List.reverse_reverse]

theorem dropWhile_ne_nil_of_getLast (p : Char → Bool) (l : List Char) (c : Char)
    (hgl : l.getLast? = some c) (hc : p c = false) : l.dropWhile p ≠ [] := by
  intro h
  rw [List.dropWhile_eq_nil_iff] at h
  have hm : c ∈ l := by
    have hne : l ≠ [] := by
      intro hl
      rw [hl] at hgl
      exact absurd hgl (by simp)
    rcases List.getLast?_eq_getLast l hne ▸ hgl with h'
    exact (Option.some.inj h') ▸ List.getLast_mem hne
  exact absurd (h c hm) (by simp [hc])

theorem finalizeBase_of_ne (b : List Char) (h : b ≠ []) : finalizeBase b = ⟨b⟩ := by
  cases b with
  | nil => exact absurd rfl h
  | cons c r => rfl

/-- Characters of a grouping separator are neither `/` nor `.`. -/
theorem sep_chars (sep : String)
    (hsep : sep = "" ∨ sep = " " ∨ sep = "_" ∨ sep.data.map Char.toLower = ['p', 'a', 'g', 'e']) :
    ∀ c ∈ sep.data, c ≠ '/' ∧ c ≠ '.' := by
  intro c hc
  rcases hsep with rfl | rfl | rfl | hmap
  · exact absurd hc (by simp)
  · have : c = ' ' := by simpa using hc
    subst this
    exact ⟨by decide, by decide⟩
  · have : c = '_' := by simpa using hc
    subst this
    exact ⟨by decide, by decide⟩
  · constructor
    · intro h
      subst h
      have hm : Char.toLower '/' ∈ sep.data.map Char.toLower := List.mem_map_of_mem _ hc
      rw [hmap] at hm
      exact absurd hm (by decide)
    · intro h
      subst h
      have hm : Char.toLower '.' ∈ sep.data.map Char.toLower := List.mem_map_of_mem _ hc
      rw [hmap] at hm
      exact absurd hm (by decide)

/-- A digit character is neither `/` nor `.`. -/
theorem digit_ne_slash_dot {c : Char} (h : c.isDigit = true) : c ≠ '/' ∧ c ≠ '.' := by
  constructor
  · intro hc
    rw [hc] at h
    exact absurd h (by decide)
  · intro hc
    rw [hc] at h
    exact absurd h (by decide)

/-- The stem extraction (`Path(...).name` then `rsplit('.', 1)`) on a
filename of shape `stem ++ "." ++ ext` with a slash-free stem and a
dot-free, slash-free extension. -/
theorem rsplit_pathName (fname : String) (S E : List Char)
    (hfd : fname.data = S ++ ('.' :: E))
    (hS : ∀ c ∈ S, c ≠ '/') (hE1 : '.' ∉ E) (hE2 : '/' ∉ E) :
    rsplitNoExt (pathName fname) = S := by
  have hall : ∀ c ∈ S ++ ('.' :: E), (fun c => decide (c ≠ '/')) c = true := by
    intro c hc
    simp only [List.mem_append, List.mem_cons] at hc
    rcases hc with h | h | h
    · simp [hS c h]
    · subst h
      decide
    · simp only [decide_eq_true_eq]
      intro hcon
      rw [hcon] at h
      exact hE2 h
  have hpn : pathName fname = S ++ ('.' :: E) := by
    unfold pathName
    rw [hfd, List.takeWhile_eq_self_iff.mpr
      (fun x hx => hall x (by rwa [List.mem_reverse] at hx)), List.reverse_reverse]
  rw [hpn]
  unfold rsplitNoExt
  rw [if_pos (by
    show (S ++ ('.' :: E)).contains '.' = true
    exact List.elem_iff.mpr (by simp))]
  rw [List.reverse_append,
    show ('.' :: E).reverse = E.reverse ++ ['.'] from by simp,
    List.append_assoc,
    dropWhile_append_of _ E.reverse (['.'] ++ S.reverse)
      (by
        intro x hx
        rw [List.mem_reverse] at hx
        simp only [decide_eq_true_eq]
        intro hcon
        rw [hcon] at hx
        exact hE1 hx)
      (by
        intro c hcv
        have : some '.' = some c := hcv
        rw [← Option.some.inj this]
        decide)]
  simp

/-- Shape of a `"Page"` spelling (any case). -/
theorem page_sep_shape (sep : String) (hmap : sep.data.map Char.toLower = ['p', 'a', 'g', 'e']) :
    ∃ c1 c2 c3 c4, sep.data = [c1, c2, c3, c4] ∧ c1.toLower = 'p' ∧ c2.toLower = 'a' ∧
      c3.toLower = 'g' ∧ c4.toLower = 'e' := by
  rcases hs : sep.data with _ | ⟨c1, t1⟩
  · rw [hs] at hmap
    exact absurd hmap (by simp)
  rcases t1 with _ | ⟨c2, t2⟩
  · rw [hs] at hmap
    simp at hmap
  rcases t2 with _ | ⟨c3, t3⟩
  · rw [hs] at hmap
    simp at hmap
  rcases t3 with _ | ⟨c4, t4⟩
  · rw [hs] at hmap
    simp at hmap
  rw [hs] at hmap
  simp only [List.map_cons, List.cons.injEq] at hmap
  obtain ⟨h1, h2, h3, h4, h5⟩ := hmap
  have ht4 : t4 = [] := List.map_eq_nil_iff.mp h5
  exact ⟨c1, c2, c3, c4, by rw [ht4], h1, h2, h3, h4⟩

/-- A character whose lowercasing is a letter is not a digit. -/
theorem not_digit_of_toLower (c : Char) (x : Char) (hx : c.toLower = x)
    (hxd : x.isDigit = false) : c.isDigit = false := by
  by_contra hcon
  rw [Bool.not_eq_false] at hcon
  have := isDigit_toLower_eq c hcon
  rw [this] at hx
  rw [hx] at hcon
  rw [hcon] at hxd
  exact absurd hxd (by simp)

/-- `parse_filename_for_grouping` on a stem of shape
`base ++ sep ++ digits` (with the canonical reading: `base` non-empty and
ending in neither a digit, a space/underscore, nor a `Page` spelling):
the returned base name is `base` stripped of leading and trailing spaces
and underscores, and the page number is `int(digits)`. -/
theorem parse_base_sep_digits (fname base sep n : String)
    (hst : rsplitNoExt (pathName fname) = (base.data ++ sep.data) ++ n.data)
    (hb : base.data ≠ [])
    (hbd : ∀ c, base.data.getLast? = some c → c.isDigit = false)
    (hbsep : ∀ c, base.data.getLast? = some c → sepChar c = false)
    (hbpage : startsWithPageRev base.data.reverse = false)
    (hsep : sep = "" ∨ sep = " " ∨ sep = "_" ∨ sep.data.map Char.toLower = ['p', 'a', 'g', 'e'])
    (hn : n.data ≠ []) (hnd : ∀ c ∈ n.data, c.isDigit = true) :
    parseFilenameForGrouping fname = (⟨stripWhile sepChar base.data⟩, natOfDigits n.data) := by
  obtain ⟨d, hdlast⟩ : ∃ d, base.data.getLast? = some d := by
    cases hg : base.data.getLast? with
    | none => exact absurd (List.getLast?_eq_none_iff.mp hg) hb
    | some d => exact ⟨d, rfl⟩
  have hbrevhead : base.data.reverse.head? = some d := by
    rw [List.head?_reverse]
    exact hdlast
  -- head of the reversed pre-digit tail fails `isDigit`
  have hheadfail : ∀ c, (sep.data.reverse ++ base.data.reverse).head? = some c →
      c.isDigit = false := by
    intro c hc
    rcases hsep with rfl | rfl | rfl | hmap
    · rw [show ("" : String).data.reverse = ([] : List Char) from rfl, List.nil_append] at hc
      rw [hbrevhead] at hc
      exact Option.some.inj hc ▸ hbd d hdlast
    · have h' : some ' ' = some c := hc
      rw [← Option.some.inj h']
      rfl
    · have h' : some '_' = some c := hc
      rw [← Option.some.inj h']
      rfl
    · obtain ⟨c1, c2, c3, c4, hs, _, _, _, h4⟩ := page_sep_shape sep hmap
      rw [hs] at hc
      have h' : some c4 = some c := hc
      rw [← Option.some.inj h']
      exact not_digit_of_toLower c4 'e' h4 (by decide)
  have htake : ((base.data ++ sep.data) ++ n.data).reverse.takeWhile Char.isDigit
      = n.data.reverse := by
    rw [List.reverse_append]
    exact takeWhile_append_of _ _ _ (fun x hx => hnd x (List.mem_reverse.mp hx))
      (by rw [List.reverse_append]; exact hheadfail)
  have hdrop : ((base.data ++ sep.data) ++ n.data).reverse.dropWhile Char.isDigit
      = sep.data.reverse ++ base.data.reverse := by
    rw [List.reverse_append, List.reverse_append]
    exact dropWhile_append_of _ _ _ (fun x hx => hnd x (List.mem_reverse.mp hx)) hheadfail
  -- the unconsumed base after the regex match
  have hmb : matchPotentialBase (sep.data.reverse ++ base.data.reverse) = base.data := by
    rcases hsep with rfl | rfl | rfl | hmap
    · show matchPotentialBase base.data.reverse = base.data
      rcases hbr : base.data.reverse with _ | ⟨c, r⟩
      · exact absurd (by simpa using hbr) hb
      · have hcd : c = d := by
          have h1 : (base.data.reverse).head? = some c := by rw [hbr]; rfl
          rw [hbrevhead] at h1
          exact (Option.some.inj h1).symm
        unfold matchPotentialBase
        rw [if_neg (by rw [← hbr]; simp [hbpage])]
        show (if sepChar c then r.reverse else (c :: r).reverse) = base.data
        rw [if_neg (by rw [hcd]; simp [hbsep d hdlast]), ← hbr, List.reverse_reverse]
    · show matchPotentialBase (' ' :: base.data.reverse) = base.data
      unfold matchPotentialBase
      rw [startsWithPageRev_cons_false ' ' _ (by decide)]
      show base.data.reverse.reverse = base.data
      exact List.reverse_reverse _
    · show matchPotentialBase ('_' :: base.data.reverse) = base.data
      unfold matchPotentialBase
      rw [startsWithPageRev_cons_false '_' _ (by decide)]
      show base.data.reverse.reverse = base.data
      exact List.reverse_reverse _
    · obtain ⟨c1, c2, c3, c4, hs, h1, h2, h3, h4⟩ := page_sep_shape sep hmap
      rw [hs]
      show matchPotentialBase (c4 :: c3 :: c2 :: c1 :: base.data.reverse) = base.data
      unfold matchPotentialBase
      rw [if_pos (by
        show startsWithPageRev (c4 :: c3 :: c2 :: c1 :: base.data.reverse) = true
        unfold startsWithPageRev
        simp [h1, h2, h3, h4])]
      show base.data.reverse.reverse = base.data
      exact List.reverse_reverse _
  -- strip of the base is its leading dropWhile and is non-empty
  have hstrip : stripWhile sepChar base.data = base.data.dropWhile sepChar :=
    stripWhile_of_getLast sepChar base.data (fun c hc => by
      rw [hdlast] at hc
      exact Option.some.inj hc ▸ hbsep d hdlast)
  have hsne : stripWhile sepChar base.data ≠ [] := by
    rw [hstrip]
    exact dropWhile_ne_nil_of_getLast sepChar base.data d hdlast (hbsep d hdlast)
  -- assemble
  have hne : (n.data.reverse).isEmpty = false := by
    rcases hnn : n.data with _ | ⟨c, r⟩
    · exact absurd hnn hn
    · simp
  have hbe : (base.data).isEmpty = false := by
    rcases hbb : base.data with _ | ⟨c, r⟩
    · exact absurd hbb hb
    · simp
  have hps : parsePageSplit ((base.data ++ sep.data) ++ n.data) =
      (stripWhile sepChar base.data, natOfDigits n.data) := by
    unfold parsePageSplit
    rw [htake, hdrop, hne, hmb, hbe, List.reverse_reverse]
    rfl
  unfold parseFilenameForGrouping
  rw [hst, hps]
  show (finalizeBase (stripWhile sepChar base.data), natOfDigits n.data) = _
  rw [finalizeBase_of_ne _ hsne]

/-- `parse_filename_for_grouping` on a stem with no trailing digit. -/
theorem parse_stem_no_digit (fname : String) (S : List Char)
    (hst : rsplitNoExt (pathName fname) = S)
    (hSne : S ≠ [])
    (hlast : ∀ c, S.getLast? = some c → c.isDigit = false) :
    parseFilenameForGrouping fname = (⟨S⟩, 1) := by
  have hdig : S.reverse.takeWhile Char.isDigit = [] := by
    rcases hrev : S.reverse with _ | ⟨c, r⟩
    · rfl
    · have hc : S.getLast? = some c := by rw [← List.head?_reverse, hrev]; rfl
      exact takeWhile_cons_of_neg _ c r (hlast c hc)
  have hps : parsePageSplit S = (S, 1) := by
    unfold parsePageSplit
    rw [hdig]
    rfl
  unfold parseFilenameForGrouping
  rw [hst, hps]
  show (finalizeBase S, 1) = _
  rw [finalizeBase_of_ne S hSne]

/-- `parse_filename_for_grouping` on a purely numeric stem. -/
theorem parse_numeric_stem (fname : String) (n : String)
    (hst : rsplitNoExt (pathName fname) = n.data)
    (hn : n.data ≠ []) (hnd : ∀ c ∈ n.data, c.isDigit = true) :
    parseFilenameForGrouping fname = (n, 1) := by
  have htake : n.data.reverse.takeWhile Char.isDigit = n.data.reverse :=
    List.takeWhile_eq_self_iff.mpr (fun x hx => hnd x (List.mem_reverse.mp hx))
  have hdrop : n.data.reverse.dropWhile Char.isDigit = [] :=
    List.dropWhile_eq_nil_iff.mpr (fun x hx => hnd x (List.mem_reverse.mp hx))
  have hne : (n.data.reverse).isEmpty = false := by
    rcases hnn : n.data with _ | ⟨c, r⟩
    · exact absurd hnn hn
    · simp
  have hps : parsePageSplit n.data = (n.data, 1) := by
    unfold parsePageSplit
    rw [htake, hdrop, hne]
    rfl
  unfold parseFilenameForGrouping
  rw [hst, hps]
  show (finalizeBase n.data, 1) = _
  rw [finalizeBase_of_ne _ hn, stringMkData]

/-! ## Claim C8 — filename parsing for grouping -/

/-- **C8, counterexample.**  The claim says the base is returned with
*trailing* separators trimmed: for `"_A_1.pdf"` (base `"_A"`, separator
`"_"`, digits `"1"`) that predicts `("_A", 1)`, but the code's
`.strip(' _')` also trims the *leading* underscore and returns `("A", 1)`.
And for `".pdf"` — a filename with no trailing number — the claim predicts
`(name-without-extension, 1) = ("", 1)`, but the code substitutes
`"unknown_doc"`. -/
theorem filename_grouping_counterexample :
    parseFilenameForGrouping "_A_1.pdf" = ("A", 1) ∧ ("A" : String) ≠ "_A" ∧
    parseFilenameForGrouping ".pdf" = ("unknown_doc", 1) ∧ ("unknown_doc" : String) ≠ "" := by
  refine ⟨by decide, by decide, by decide, by decide⟩

/-- **C8, amended.**  For `<base><sep><N>.<ext>` with `<base>` non-empty
and ending in neither a digit, a space/underscore, nor a `Page` spelling
(so the decomposition is the one the regex realizes), `<sep>` a space,
underscore, any-case `Page`, or absent, and `<N>` a maximal digit string:
the parser returns `base` stripped of **leading and trailing** spaces and
underscores, with page `int(N)`.  A filename whose stem is non-empty with
no trailing digit yields `(stem, 1)`; a purely numeric stem falls back to
the whole stem with page 1 — never an empty base name. -/
theorem filename_grouping_amended (base sep n ext stem : String)
    (hb : base.data ≠ []) (hbs : '/' ∉ base.data)
    (hbd : ∀ c, base.data.getLast? = some c → c.isDigit = false)
    (hbsep : ∀ c, base.data.getLast? = some c → sepChar c = false)
    (hbpage : startsWithPageRev base.data.reverse = false)
    (hsep : sep = "" ∨ sep = " " ∨ sep = "_" ∨ sep.data.map Char.toLower = ['p', 'a', 'g', 'e'])
    (hn : n.data ≠ []) (hnd : ∀ c ∈ n.data, c.isDigit = true)
    (hed : '.' ∉ ext.data) (hes : '/' ∉ ext.data)
    (hstm : stem.data ≠ []) (hsts : '/' ∉ stem.data)
    (hstd : ∀ c, stem.data.getLast? = some c → c.isDigit = false) :
    parseFilenameForGrouping (base ++ sep ++ n ++ "." ++ ext) =
      (⟨stripWhile sepChar base.data⟩, natOfDigits n.data) ∧
    parseFilenameForGrouping (stem ++ "." ++ ext) = (stem, 1) ∧
    parseFilenameForGrouping (n ++ "." ++ ext) = (n, 1) := by
  refine ⟨?_, ?_, ?_⟩
  · have hfd : (base ++ sep ++ n ++ "." ++ ext).data
        = ((base.data ++ sep.data) ++ n.data) ++ ('.' :: ext.data) := by
      rw [String.data_append, String.data_append, String.data_append, String.data_append,
        List.append_assoc]
      rfl
    have hS : ∀ c ∈ (base.data ++ sep.data) ++ n.data, c ≠ '/' := by
      intro c hc
      simp only [List.mem_append] at hc
      rcases hc with (h | h) | h
      · intro hcc
        rw [hcc] at h
        exact hbs h
      · exact (sep_chars sep hsep c h).1
      · exact (digit_ne_slash_dot (hnd c h)).1
    exact parse_base_sep_digits _ base sep n
      (rsplit_pathName _ _ _ hfd hS hed hes) hb hbd hbsep hbpage hsep hn hnd
  · have hfd : (stem ++ "." ++ ext).data = stem.data ++ ('.' :: ext.data) := by
      rw [String.data_append, String.data_append, List.append_assoc]
      rfl
    have hS : ∀ c ∈ stem.data, c ≠ '/' := by
      intro c hc hcc
      rw [hcc] at hc
      exact hsts hc
    have h2 := parse_stem_no_digit _ stem.data
      (rsplit_pathName _ _ _ hfd hS hed hes) hstm hstd
    rw [h2, stringMkData]
  · have hfd : (n ++ "." ++ ext).data = n.data ++ ('.' :: ext.data) := by
      rw [String.data_append, String.data_append, List.append_assoc]
      rfl
    have hS : ∀ c ∈ n.data, c ≠ '/' := fun c hc => (digit_ne_slash_dot (hnd c hc)).1
    exact parse_numeric_stem _ n (rsplit_pathName _ _ _ hfd hS hed hes) hn hnd

/-- Witness for C8's amended theorem: `"Doc APage12.pdf"` parses to
`("Doc A", 12)`, `"Name.pdf"` to `("Name", 1)`, `"12.pdf"` to
`("12", 1)`. -/
theorem filename_grouping_amended_witness :
    parseFilenameForGrouping ("Doc A" ++ "Page" ++ "12" ++ "." ++ "pdf") = ("Doc A", 12) ∧
    parseFilenameForGrouping ("Name" ++ "." ++ "pdf") = ("Name", 1) ∧
    parseFilenameForGrouping ("12" ++ "." ++ "pdf") = ("12", 1) := by
  have h := filename_grouping_amended "Doc A" "Page" "12" "pdf" "Name"
    (by decide) (by decide)
    (fun c hc => by
      obtain rfl : 'A' = c := Option.some.inj (show some 'A' = some c from hc)
      decide)
    (fun c hc => by
      obtain rfl : 'A' = c := Option.some.inj (show some 'A' = some c from hc)
      decide)
    (by decide)
    (Or.inr (Or.inr (Or.inr (by decide))))
    (by decide) (by decide) (by decide) (by decide) (by decide) (by decide)
    (fun c hc => by
      obtain rfl : 'e' = c := Option.some.inj (show some 'e' = some c from hc)
      decide)
  exact ⟨h.1, h.2.1, h.2.2⟩

/-! ## Claim C5 — response validation in classification -/

/-- **C5, counterexample.**  A transport-successful classification response
whose body is the JSON object `\x7b"foo": 1\x7d` — missing all three
required keys `classified_type`/`confidence`/`reasoning` — is returned as a
success (a dict without an `"error"` key), not as a terminal
malformed-response failure.  The decode stub agrees with `json.loads` on
the one string it is asked about. -/
theorem classify_validation_counterexample :
    classifyDocumentType
      (fun s => if s = "\x7b\"foo\": 1\x7d" then some [("foo", JsonVal.num 1)] else none)
      [("doc 1.pdf", 1)] true
      (.response ⟨some "\x7b\"foo\": 1\x7d", none⟩) =
      .parsed (.ok [("foo", JsonVal.num 1)]) ∧
    ClassifyResult.hasErrorKey (.parsed (.ok [("foo", JsonVal.num 1)])) = false :=
  ⟨rfl, rfl⟩

/-- **C5, amended.**  On transport success `_classify_document_type` checks
only that the response has non-empty text, strips markdown fences, and
requires the stripped body to be brace-delimited and `json.loads`-decodable;
the decoded object is returned verbatim — no validation of its keys, of
`classified_type` membership, or of the confidence range happens, and the
result counts as a success exactly when the object lacks an `"error"` key.
A non-JSON or non-brace-delimited body yields a terminal error dict, and a
safety-block signal yields a Content Blocked error dict. -/
theorem classify_validation_amended (decode : String → Option JsonObj)
    (files : List PageEntry) (hf : files.isEmpty = false)
    (blocked : Option (String × String)) :
    (∀ t obj, t ≠ "" →
      decode (stripFences (pyStrip t)) = some obj →
      pyStartsWith (stripFences (pyStrip t)) "\x7b" = true →
      pyEndsWith (stripFences (pyStrip t)) "\x7d" = true →
      classifyDocumentType decode files true (.response ⟨some t, blocked⟩) =
        .parsed (.ok obj) ∧
      ClassifyResult.hasErrorKey (.parsed (.ok obj)) = (obj.lookup "error").isSome) ∧
    (∀ t, t ≠ "" →
      (pyStartsWith (stripFences (pyStrip t)) "\x7b" &&
        pyEndsWith (stripFences (pyStrip t)) "\x7d") = false →
      classifyDocumentType decode files true (.response ⟨some t, blocked⟩) =
        .parsed (.invalidStructure (stripFences (pyStrip t)))) ∧
    (∀ t, t ≠ "" →
      (pyStartsWith (stripFences (pyStrip t)) "\x7b" &&
        pyEndsWith (stripFences (pyStrip t)) "\x7d") = true →
      decode (stripFences (pyStrip t)) = none →
      classifyDocumentType decode files true (.response ⟨some t, blocked⟩) =
        .parsed (.decodeError t)) ∧
    (∀ reason ratings, classifyDocumentType decode files true
        (.response ⟨none, some (reason, ratings)⟩) = .parsed (.blocked reason ratings)) ∧
    (∀ m, classifyDocumentType decode files true (.googleApiError m) = .apiError m) := by
  have hcls : ∀ tr, classifyDocumentType decode files true tr =
      (match tr with
       | .response resp => .parsed (parseVertexJsonResponse decode resp)
       | .googleApiError m => .apiError m
       | .otherError m => .unexpected m) := by
    intro tr
    unfold classifyDocumentType
    rw [hf]
    rfl
  refine ⟨?_, ?_, ?_, ?_, ?_⟩
  · intro t obj hne hdec hb1 hb2
    refine ⟨?_, rfl⟩
    rw [hcls]
    show ClassifyResult.parsed _ = _
    rw [parse_unfold decode blocked t hne, hb1, hb2, hdec]
    rfl
  · intro t hne hcond
    rw [hcls]
    show ClassifyResult.parsed _ = _
    rw [parse_unfold decode blocked t hne, if_neg (by rw [hcond]; exact Bool.false_ne_true)]
  · intro t hne hcond hdec
    rw [hcls]
    show ClassifyResult.parsed _ = _
    rw [parse_unfold decode blocked t hne, if_pos hcond, hdec]
  · intro reason ratings
    rw [hcls]
    rfl
  · intro m
    rw [hcls]


/-- Witness for C5's amended theorem: the success arm at `"\x7b\x7d"`, the
invalid-structure arm at `"not json"`, and the blocked arm. -/
theorem classify_validation_amended_witness :
    classifyDocumentType (fun s => if s = "\x7b\x7d" then some [] else none)
      [("a 1.pdf", 1)] true (.response ⟨some "\x7b\x7d", none⟩) = .parsed (.ok []) ∧
    classifyDocumentType (fun s => if s = "\x7b\x7d" then some [] else none)
      [("a 1.pdf", 1)] true (.response ⟨some "not json", none⟩) =
      .parsed (.invalidStructure "not json") ∧
    classifyDocumentType (fun s => if s = "\x7b\x7d" then some [] else none)
      [("a 1.pdf", 1)] true (.response ⟨none, some ("SAFETY", "[...]")⟩) =
      .parsed (.blocked "SAFETY" "[...]") := by
  have h := classify_validation_amended (fun s => if s = "\x7b\x7d" then some [] else none)
    [("a 1.pdf", 1)] rfl none
  exact ⟨(h.1 "\x7b\x7d" [] (by decide) (by rfl) (by decide) (by decide)).1,
    h.2.1 "not json" (by decide) (by decide),
    h.2.2.2.1 "SAFETY" "[...]"⟩

/-! ## Claim C9 — order-independent grouping and sorted pages -/

instance : IsTotal PageEntry pageLE := ⟨fun a b => Nat.le_total a.2 b.2⟩

instance : IsTrans PageEntry pageLE := ⟨fun _ _ _ => Nat.le_trans⟩

/-- Characterization device: the page entries of group `b` among `files`,
in input order, before sorting. -/
def entriesFor (files : List String) (b : String) : List PageEntry :=
  files.filterMap fun f =>
    if isSupportedDocFile f = true ∧ (parseFilenameForGrouping f).1 = b then
      some (f, (parseFilenameForGrouping f).2)
    else none

/-- The member list of key `b` in a group dict, `[]` when absent. -/
def lookupList (m : List (String × List PageEntry)) (b : String) : List PageEntry :=
  (m.lookup b).getD []

theorem lookupList_insertGroup_self (m : List (String × List PageEntry)) (b : String)
    (e : PageEntry) : lookupList (insertGroup m b e) b = lookupList m b ++ [e] := by
  induction m with
  | nil => simp [insertGroup, lookupList]
  | cons kv rest ih =>
      obtain ⟨k, v⟩ := kv
      unfold insertGroup
      by_cases hk : k = b
      · subst hk
        rw [if_pos rfl]
        unfold lookupList
        rw [List.lookup, List.lookup, beq_self_eq_true]
        rfl
      · rw [if_neg hk]
        unfold lookupList
        rw [List.lookup, List.lookup]
        have hbk : (b == k) = false := by
          rw [beq_eq_false_iff_ne]
          exact fun hcon => hk hcon.symm
        rw [hbk]
        exact ih

theorem lookupList_insertGroup_other (m : List (String × List PageEntry)) (b b' : String)
    (e : PageEntry) (hne : b' ≠ b) :
    lookupList (insertGroup m b e) b' = lookupList m b' := by
  induction m with
  | nil =>
      unfold insertGroup lookupList
      rw [List.lookup, List.lookup]
      have : (b' == b) = false := by rwa [beq_eq_false_iff_ne]
      rw [this]
      rfl
  | cons kv rest ih =>
      obtain ⟨k, v⟩ := kv
      unfold insertGroup
      by_cases hk : k = b
      · subst hk
        unfold lookupList
        rw [if_pos rfl, List.lookup, List.lookup]
        have : (b' == k) = false := by rwa [beq_eq_false_iff_ne]
        rw [this]
      · rw [if_neg hk]
        unfold lookupList
        rw [List.lookup, List.lookup]
        cases hbk : b' == k
        · exact ih
        · rfl

theorem entriesFor_cons (f : String) (fs : List String) (b : String) :
    entriesFor (f :: fs) b =
      (if isSupportedDocFile f = true ∧ (parseFilenameForGrouping f).1 = b then
        [(f, (parseFilenameForGrouping f).2)] else []) ++ entriesFor fs b := by
  by_cases h : isSupportedDocFile f = true ∧ (parseFilenameForGrouping f).1 = b
  · rw [if_pos h]
    unfold entriesFor
    rw [List.filterMap_cons]
    simp only [if_pos h]
    rfl
  · rw [if_neg h]
    unfold entriesFor
    rw [List.filterMap_cons]
    simp only [if_neg h]
    rfl

theorem lookupList_foldl (files : List String) :
    ∀ acc b, lookupList (files.foldl addFileToGroups acc) b
      = lookupList acc b ++ entriesFor files b := by
  induction files with
  | nil =>
      intro acc b
      show lookupList acc b = lookupList acc b ++ entriesFor [] b
      rw [show entriesFor [] b = [] from rfl, List.append_nil]
  | cons f fs ih =>
      intro acc b
      rw [List.foldl_cons, entriesFor_cons]
      by_cases hs : isSupportedDocFile f = true
      · by_cases hb : (parseFilenameForGrouping f).1 = b
        · rw [if_pos ⟨hs, hb⟩]
          rw [show addFileToGroups acc f
              = insertGroup acc (parseFilenameForGrouping f).1
                  (f, (parseFilenameForGrouping f).2) from by
            unfold addFileToGroups; rw [if_pos hs]]
          rw [ih, hb, lookupList_insertGroup_self]
          rw [List.append_assoc]
        · rw [if_neg (fun hcon => hb hcon.2)]
          rw [show addFileToGroups acc f
              = insertGroup acc (parseFilenameForGrouping f).1
                  (f, (parseFilenameForGrouping f).2) from by
            unfold addFileToGroups; rw [if_pos hs]]
          rw [ih, lookupList_insertGroup_other acc (parseFilenameForGrouping f).1 b
            (f, (parseFilenameForGrouping f).2) (fun hcon => hb hcon.symm)]
          rfl
      · rw [if_neg (fun hcon => hs hcon.1)]
        rw [show addFileToGroups acc f = acc from by unfold addFileToGroups; rw [if_neg hs]]
        rw [ih]
        rfl

theorem groupMembers_eq (files : List String) (b : String) :
    groupMembers files b = List.insertionSort pageLE (entriesFor files b) := by
  unfold groupMembers groupFilesByBaseName
  have hmap : ∀ (m : List (String × List PageEntry)),
      (m.map fun g => (g.1, List.insertionSort pageLE g.2)).lookup b
        = (m.lookup b).map (List.insertionSort pageLE) := by
    intro m
    induction m with
    | nil => rfl
    | cons kv rest ih =>
        obtain ⟨k, v⟩ := kv
        rw [List.map_cons, List.lookup, List.lookup]
        cases hbk : b == k
        · exact ih
        · rfl
  rw [hmap]
  have hf := lookupList_foldl files [] b
  unfold lookupList at hf
  cases hl : (files.foldl addFileToGroups []).lookup b with
  | none =>
      rw [hl] at hf
      simp only [List.lookup_nil, Option.getD_none, List.nil_append] at hf
      rw [← hf]
      rfl
  | some v =>
      rw [hl] at hf
      simp only [List.lookup_nil, Option.getD_none, Option.getD_some, List.nil_append] at hf
      show List.insertionSort pageLE v = List.insertionSort pageLE (entriesFor files b)
      rw [hf]

/-- **C9.**  Grouping is order-independent: permuting the folder's file
list leaves every group's membership identical (the member lists are
permutations of each other, hence equal as sets — and for the duplicate-free
file lists of a real folder, equal as sets of files); and within every
group the page entries are sorted ascending by parsed page number. -/
theorem grouping_order_independent (l l' : List String) (h : l.Perm l') (b : String) :
    (groupMembers l b).Perm (groupMembers l' b) ∧
    List.Sorted pageLE (groupMembers l b) := by
  constructor
  · rw [groupMembers_eq, groupMembers_eq]
    exact ((List.perm_insertionSort pageLE _).trans (h.filterMap _)).trans
      (List.perm_insertionSort pageLE _).symm
  · rw [groupMembers_eq]
    exact List.sorted_insertionSort pageLE _

/-- Witness for C9 at a concrete folder and its permutation. -/
theorem grouping_order_independent_witness :
    (groupMembers ["b 2.pdf", "a 2.pdf", "a 1.pdf"] "a").Perm
      (groupMembers ["a 1.pdf", "b 2.pdf", "a 2.pdf"] "a") ∧
    List.Sorted pageLE (groupMembers ["b 2.pdf", "a 2.pdf", "a 1.pdf"] "a") :=
  grouping_order_independent _ _ (by decide) "a"

/-! ## Claim C2 — UNKNOWN groups never reach extraction -/

/-- A step-4 decision that queues a task queues it under its own key. -/
theorem step4Decision_task_key (docFields : List (String × List (String × String)))
    (cases : List (String × List String)) (cr : JsonObj) (c b : String) (t : ExtTask)
    (h : step4Decision docFields cases cr c b = .task t) :
    t.caseId = c ∧ t.baseName = b := by
  unfold step4Decision at h
  split at h
  · split at h
    · split at h
      · split at h
        · split at h
          · cases h
            exact ⟨rfl, rfl⟩
          · exact Step4Decision.noConfusion h
        · exact Step4Decision.noConfusion h
      · exact Step4Decision.noConfusion h
    · exact Step4Decision.noConfusion h
  · exact Step4Decision.noConfusion h

/-- A key classified `"UNKNOWN"` never becomes an extraction task. -/
theorem step4_unknown_no_task (docFields : List (String × List (String × String)))
    (cases : List (String × List String)) (cr : JsonObj) (c b : String)
    (hct : cr.lookup "classified_type" = some (JsonVal.str "UNKNOWN")) (t : ExtTask) :
    step4Decision docFields cases cr c b ≠ .task t := by
  intro h
  unfold step4Decision at h
  rw [hct] at h
  rw [show knownFieldType docFields (some (JsonVal.str "UNKNOWN")) = none from rfl] at h
  split at h
  · exact Step4Decision.noConfusion h
  · exact Step4Decision.noConfusion h

/-- **C2.**  A DocumentGroup whose classification outcome carries
`classified_type == "UNKNOWN"` is never submitted to
`_extract_data_from_document`: no extraction task carries its
`(case_id, base_name)` key, for any configuration and any oracles — whether
or not the outcome also carries an error.  (Such a group receives its row
directly in step 4; see C1.) -/
theorem unknown_never_extracted (docFields : List (String × List (String × String)))
    (classOracle : String → String → JsonObj) (cases : List (String × List String))
    (c b : String)
    (hct : (classOracle c b).lookup "classified_type" = some (JsonVal.str "UNKNOWN")) :
    ∀ t ∈ extractionTasks docFields classOracle cases, (t.caseId, t.baseName) ≠ (c, b) := by
  intro t ht hkey
  unfold extractionTasks at ht
  obtain ⟨k, hk, hmatch⟩ := List.mem_filterMap.mp ht
  have hdec : step4Decision docFields cases (classOracle k.1 k.2) k.1 k.2 = .task t := by
    revert hmatch
    cases step4Decision docFields cases (classOracle k.1 k.2) k.1 k.2 <;> intro hmatch
    · exact Option.noConfusion hmatch
    · rw [Option.some.inj hmatch]
    · exact Option.noConfusion hmatch
  have hkc := step4Decision_task_key _ _ _ _ _ _ hdec
  have h1 : k.1 = c := by rw [← hkc.1]; exact congrArg Prod.fst hkey
  have h2 : k.2 = b := by rw [← hkc.2]; exact congrArg Prod.snd hkey
  rw [h1, h2] at hdec
  exact step4_unknown_no_task docFields cases (classOracle c b) c b hct t hdec

/-- Witness for C2: with group `a` classified UNKNOWN and group `b`
classified as a configured type, the single queued task's key differs from
`("C1", "a")`. -/
theorem unknown_never_extracted_witness :
    ((ExtTask.mk "C1" "b" "INVOICE" [("F", "d")]).caseId,
     (ExtTask.mk "C1" "b" "INVOICE" [("F", "d")]).baseName) ≠ ("C1", "a") := by
  have htasks : extractionTasks [("INVOICE", [("F", "d")])]
      (fun _ g => if g = "a" then [("classified_type", JsonVal.str "UNKNOWN")]
        else [("classified_type", JsonVal.str "INVOICE")])
      [("C1", ["a 1.pdf", "b 1.pdf"])] =
      [ExtTask.mk "C1" "b" "INVOICE" [("F", "d")]] := rfl
  exact unknown_never_extracted [("INVOICE", [("F", "d")])]
    (fun _ g => if g = "a" then [("classified_type", JsonVal.str "UNKNOWN")]
      else [("classified_type", JsonVal.str "INVOICE")])
    [("C1", ["a 1.pdf", "b 1.pdf"])] "C1" "a" rfl
    (ExtTask.mk "C1" "b" "INVOICE" [("F", "d")])
    (htasks ▸ List.mem_singleton.mpr rfl)

/-! ## Row-key infrastructure for the aggregation claims

The row dict keys are either fixed literals or `prefix ++ suffix` with
`suffix ∈ {_Value, _Confidence, _Reasoning, _Raw}`.  Two such keys can only
collide when the fixed suffixes (or the literal's tail) agree, which the
lemmas below decide by comparing reversed prefixes. -/

theorem empty_append_str (t : String) : "" ++ t = t := by
  apply stringDataInj
  rw [String.data_append]
  rfl

/-- Two appended keys with incompatible fixed suffixes never collide. -/
theorem append_suffix_ne (s t : String)
    (h : s.data.reverse.take (min s.data.length t.data.length)
       ≠ t.data.reverse.take (min s.data.length t.data.length)) :
    ∀ a b : String, a ++ s ≠ b ++ t := by
  intro a b hcon
  have hd : s.data.reverse ++ a.data.reverse = t.data.reverse ++ b.data.reverse := by
    have := congrArg (fun x => x.data.reverse) hcon
    simpa only [String.data_append, List.reverse_append] using this
  apply h
  have h1 : (s.data.reverse ++ a.data.reverse).take (min s.data.length t.data.length)
      = s.data.reverse.take (min s.data.length t.data.length) := by
    rw [List.take_append_eq_append_take]
    have hz : min s.data.length t.data.length - s.data.reverse.length = 0 := by
      rw [List.length_reverse]
      omega
    rw [hz, List.take_zero, List.append_nil]
  have h2 : (t.data.reverse ++ b.data.reverse).take (min s.data.length t.data.length)
      = t.data.reverse.take (min s.data.length t.data.length) := by
    rw [List.take_append_eq_append_take]
    have hz : min s.data.length t.data.length - t.data.reverse.length = 0 := by
      rw [List.length_reverse]
      omega
    rw [hz, List.take_zero, List.append_nil]
  rw [← h1, hd, h2]

/-- An appended key with a suffix incompatible with the literal `t` never
equals `t`. -/
theorem append_ne_lit (s t : String)
    (h : s.data.reverse.take (min s.data.length t.data.length)
       ≠ t.data.reverse.take (min s.data.length t.data.length))
    (a : String) : a ++ s ≠ t := by
  have := append_suffix_ne s t h a ""
  rwa [empty_append_str] at this

/-- Same fixed suffix: collision forces equal prefixes. -/
theorem append_suffix_cancel {a b s : String} (h : a ++ s = b ++ s) : a = b := by
  apply stringDataInj
  have hd : a.data ++ s.data = b.data ++ s.data := by
    have := congrArg String.data h
    simpa only [String.data_append] using this
  exact List.append_cancel_right hd

theorem lookup_cons_ne (k k' : String) (v : JsonVal) (rest : Row) (h : k ≠ k') :
    List.lookup k ((k', v) :: rest) = List.lookup k rest := by
  rw [List.lookup]
  have hb : (k == k') = false := beq_eq_false_iff_ne.mpr h
  rw [hb]

theorem lookup_cons_self (k : String) (v : JsonVal) (rest : Row) :
    List.lookup k ((k, v) :: rest) = some v := by
  rw [List.lookup, beq_self_eq_true]

theorem lookup_insertCell_ne (m : Row) (k k' : String) (v : JsonVal) (h : k ≠ k') :
    (insertCell m k' v).lookup k = m.lookup k := by
  induction m with
  | nil =>
      unfold insertCell
      exact lookup_cons_ne k k' v [] h
  | cons kv rest ih =>
      obtain ⟨k0, v0⟩ := kv
      unfold insertCell
      by_cases hk : k0 = k'
      · subst hk
        by_cases hkk : k = k0
        · exact absurd hkk h
        · rw [if_pos rfl, lookup_cons_ne k k0 v _ hkk, lookup_cons_ne k k0 v0 _ hkk]
      · rw [if_neg hk]
        by_cases hkk : k = k0
        · subst hkk
          rw [lookup_cons_self, lookup_cons_self]
        · rw [lookup_cons_ne k k0 v0 _ hkk, lookup_cons_ne k k0 v0 _ hkk]
          exact ih

theorem lookup_insertCell_self (m : Row) (k : String) (v : JsonVal) :
    (insertCell m k v).lookup k = some v := by
  induction m with
  | nil =>
      unfold insertCell
      exact lookup_cons_self k v []
  | cons kv rest ih =>
      obtain ⟨k0, v0⟩ := kv
      unfold insertCell
      by_cases hk : k0 = k
      · subst hk
        rw [if_pos rfl, lookup_cons_self]
      · rw [if_neg hk, lookup_cons_ne k k0 v0 _ (fun hcon => hk hcon.symm)]
        exact ih

/-! ## C6: null value vs confidence in aggregated rows -/

theorem val_ne_conf : ∀ a b : String, a ++ "_Value" ≠ b ++ "_Confidence" :=
  append_suffix_ne _ _ (by decide)

theorem val_ne_reas : ∀ a b : String, a ++ "_Value" ≠ b ++ "_Reasoning" :=
  append_suffix_ne _ _ (by decide)

theorem conf_ne_reas : ∀ a b : String, a ++ "_Confidence" ≠ b ++ "_Reasoning" :=
  append_suffix_ne _ _ (by decide)

theorem val_ne_raw : ∀ a b : String, a ++ "_Value" ≠ b ++ "_Raw" :=
  append_suffix_ne _ _ (by decide)

theorem conf_ne_raw : ∀ a b : String, a ++ "_Confidence" ≠ b ++ "_Raw" :=
  append_suffix_ne _ _ (by decide)

theorem val_ne_ps (a : String) : a ++ "_Value" ≠ "Processing_Status" :=
  append_ne_lit _ _ (by decide) a

theorem conf_ne_ps (a : String) : a ++ "_Confidence" ≠ "Processing_Status" :=
  append_ne_lit _ _ (by decide) a

/-- The `value = null implies confidence = 0` invariant, read off a result
row through its namespaced `_Value` / `_Confidence` columns. -/
def valueConfOK (row : Row) : Prop :=
  ∀ q : String, row.lookup (q ++ "_Value") = some JsonVal.null →
    row.lookup (q ++ "_Confidence") = some (JsonVal.num 0)

theorem lookup_baseRowData_value (c b ct : String) (cr : JsonObj) (q : String) :
    (baseRowData c b ct cr).lookup (q ++ "_Value") = none := by
  unfold baseRowData
  rw [lookup_cons_ne _ _ _ _ (append_ne_lit "_Value" "CASE_ID" (by decide) q),
    lookup_cons_ne _ _ _ _ (append_ne_lit "_Value" "GROUP_Basename" (by decide) q),
    lookup_cons_ne _ _ _ _ (append_ne_lit "_Value" "CLASSIFIED_Type" (by decide) q),
    lookup_cons_ne _ _ _ _ (append_ne_lit "_Value" "CLASSIFICATION_Confidence" (by decide) q),
    lookup_cons_ne _ _ _ _ (append_ne_lit "_Value" "CLASSIFICATION_Reasoning" (by decide) q)]
  rfl

theorem lookup_classifiedRow_value (c b : String) (ct : JsonVal) (cr : JsonObj)
    (st q : String) : (classifiedRow c b ct cr st).lookup (q ++ "_Value") = none := by
  unfold classifiedRow
  rw [lookup_cons_ne _ _ _ _ (append_ne_lit "_Value" "CASE_ID" (by decide) q),
    lookup_cons_ne _ _ _ _ (append_ne_lit "_Value" "GROUP_Basename" (by decide) q),
    lookup_cons_ne _ _ _ _ (append_ne_lit "_Value" "CLASSIFIED_Type" (by decide) q),
    lookup_cons_ne _ _ _ _ (append_ne_lit "_Value" "CLASSIFICATION_Confidence" (by decide) q),
    lookup_cons_ne _ _ _ _ (append_ne_lit "_Value" "CLASSIFICATION_Reasoning" (by decide) q),
    lookup_cons_ne _ _ _ _ (val_ne_ps q)]
  rfl

theorem lookup_classFailRow_value (c b : String) (cr : JsonObj) (q : String) :
    (classFailRow c b cr).lookup (q ++ "_Value") = none := by
  unfold classFailRow
  rw [lookup_cons_ne _ _ _ _ (append_ne_lit "_Value" "CASE_ID" (by decide) q),
    lookup_cons_ne _ _ _ _ (append_ne_lit "_Value" "GROUP_Basename" (by decide) q),
    lookup_cons_ne _ _ _ _ (val_ne_ps q)]
  rfl

theorem lookup_naRow_value (c q : String) : (naRow c).lookup (q ++ "_Value") = none := by
  unfold naRow
  rw [lookup_cons_ne _ _ _ _ (append_ne_lit "_Value" "CASE_ID" (by decide) q),
    lookup_cons_ne _ _ _ _ (append_ne_lit "_Value" "GROUP_Basename" (by decide) q),
    lookup_cons_ne _ _ _ _ (val_ne_ps q)]
  rfl

/-- A row whose `_Value` lookups are all empty satisfies the invariant
vacuously. -/
theorem valueConfOK_of_value_none {row : Row}
    (h : ∀ q : String, row.lookup (q ++ "_Value") = none) : valueConfOK row := by
  intro q hq
  rw [h q] at hq
  exact Option.noConfusion hq

/-- The format-issue arm of the flattening loop preserves the invariant. -/
theorem valueConfOK_raw_step (row : Row) (p : String) (rv : JsonVal)
    (hrow : valueConfOK row) :
    valueConfOK (insertCell (insertCell row (p ++ "_Raw") rv) "Processing_Status"
      (.str "Extraction Partially Successful (Format Issue)")) := by
  intro q hq
  rw [lookup_insertCell_ne _ _ _ _ (val_ne_ps q),
    lookup_insertCell_ne _ _ _ _ (val_ne_raw q p)] at hq
  rw [lookup_insertCell_ne _ _ _ _ (conf_ne_ps q),
    lookup_insertCell_ne _ _ _ _ (conf_ne_raw q p)]
  exact hrow q hq

/-- The dict arm of the flattening loop preserves the invariant, provided the
inserted confidence is `0` whenever the inserted value is `null`. -/
theorem valueConfOK_obj_step (row : Row) (p : String) (vv cv rv : JsonVal)
    (hvc : vv = JsonVal.null → cv = JsonVal.num 0) (hrow : valueConfOK row) :
    valueConfOK (insertCell (insertCell (insertCell row (p ++ "_Value") vv)
      (p ++ "_Confidence") cv) (p ++ "_Reasoning") rv) := by
  intro q hq
  by_cases hqp : q = p
  · subst hqp
    rw [lookup_insertCell_ne _ _ _ _ (val_ne_reas q q),
      lookup_insertCell_ne _ _ _ _ (val_ne_conf q q),
      lookup_insertCell_self] at hq
    rw [lookup_insertCell_ne _ _ _ _ (conf_ne_reas q q), lookup_insertCell_self,
      hvc (Option.some.inj hq)]
  · rw [lookup_insertCell_ne _ _ _ _ (val_ne_reas q p),
      lookup_insertCell_ne _ _ _ _ (val_ne_conf q p),
      lookup_insertCell_ne _ _ _ _ (fun hcon => hqp (append_suffix_cancel hcon))] at hq
    rw [lookup_insertCell_ne _ _ _ _ (conf_ne_reas q p),
      lookup_insertCell_ne _ _ _ _ (fun hcon => hqp (append_suffix_cancel hcon)),
      lookup_insertCell_ne _ _ _ _ (fun hcon => val_ne_conf p q hcon.symm)]
    exact hrow q hq

/-- One flattening step preserves the invariant when the extraction result is
well-behaved on this field. -/
theorem flattenField_valueConfOK (ctype : String) (er : JsonObj) (fd : String × String)
    (hf : ∀ o, er.lookup fd.1 = some (JsonVal.obj o) →
      (o.lookup "value").getD JsonVal.null = JsonVal.null →
      o.lookup "confidence" = some (JsonVal.num 0))
    (row : Row) (hrow : valueConfOK row) : valueConfOK (flattenField ctype er row fd) := by
  unfold flattenField
  cases hlf : er.lookup fd.1 with
  | none => exact valueConfOK_raw_step row _ _ hrow
  | some v =>
      cases v with
      | obj o =>
          apply valueConfOK_obj_step row ((ctype ++ "_") ++ fd.1) _ _ _ _ hrow
          intro hv
          rw [hf o hlf hv]
          rfl
      | null => exact valueConfOK_raw_step row _ _ hrow
      | bool b0 => exact valueConfOK_raw_step row _ _ hrow
      | num n0 => exact valueConfOK_raw_step row _ _ hrow
      | str s0 => exact valueConfOK_raw_step row _ _ hrow
      | arr l0 => exact valueConfOK_raw_step row _ _ hrow

/-- The whole flattening fold preserves the invariant for a well-behaved
extraction result. -/
theorem foldl_valueConfOK (ctype : String) (er : JsonObj)
    (hf : ∀ fname o, er.lookup fname = some (JsonVal.obj o) →
      (o.lookup "value").getD JsonVal.null = JsonVal.null →
      o.lookup "confidence" = some (JsonVal.num 0)) :
    ∀ (fields : List (String × String)) (row : Row), valueConfOK row →
      valueConfOK (fields.foldl (flattenField ctype er) row)
  | [], _, h => h
  | fd :: rest, row, h =>
      foldl_valueConfOK ctype er hf rest _
        (flattenField_valueConfOK ctype er fd (fun o => hf fd.1 o) row h)

/-- Every row built by the step-5 aggregation from a well-behaved extraction
result satisfies the invariant. -/
theorem buildExtractionRow_valueConfOK (c b ctype : String)
    (fields : List (String × String)) (classResult er : JsonObj)
    (hf : ∀ fname o, er.lookup fname = some (JsonVal.obj o) →
      (o.lookup "value").getD JsonVal.null = JsonVal.null →
      o.lookup "confidence" = some (JsonVal.num 0)) :
    valueConfOK (buildExtractionRow c b ctype fields classResult (some er)) := by
  have hred : buildExtractionRow c b ctype fields classResult (some er)
      = if (er.lookup "error").isNone then
          fields.foldl (flattenField ctype er)
            (insertCell (baseRowData c b ctype classResult) "Processing_Status"
              (.str "Extraction Successful"))
        else
          insertCell (baseRowData c b ctype classResult) "Processing_Status"
            (.str ("Extraction Failed: " ++
              (((er.lookup "error").map JsonVal.pyStr).getD
                "Unknown extraction error"))) := rfl
  rw [hred]
  by_cases he : (er.lookup "error").isNone
  · rw [if_pos he]
    apply foldl_valueConfOK ctype er hf fields
    apply valueConfOK_of_value_none
    intro q
    rw [lookup_insertCell_ne _ _ _ _ (val_ne_ps q), lookup_baseRowData_value]
  · rw [if_neg he]
    apply valueConfOK_of_value_none
    intro q
    rw [lookup_insertCell_ne _ _ _ _ (val_ne_ps q), lookup_baseRowData_value]

/-- Every row emitted directly by step 4 carries no `_Value` column at all. -/
theorem step4Decision_row_valueConfOK (docFields : List (String × List (String × String)))
    (cases : List (String × List String)) (classResult : JsonObj) (c b : String)
    (r : Row) (h : step4Decision docFields cases classResult c b = Step4Decision.row r) :
    valueConfOK r := by
  unfold step4Decision at h
  split at h
  · split at h
    · split at h
      · split at h
        · split at h
          · exact Step4Decision.noConfusion h
          · exact Step4Decision.noConfusion h
        · exact Step4Decision.noConfusion h
      · cases h
        exact valueConfOK_of_value_none (lookup_classifiedRow_value _ _ _ _ _)
    · cases h
      exact valueConfOK_of_value_none (lookup_classifiedRow_value _ _ _ _ _)
  · cases h
    exact valueConfOK_of_value_none (lookup_classFailRow_value _ _ _)

/-! ### C6 concrete scenario

A one-case, one-group pipeline run: the file `a 1.pdf` groups under base
name `a`, classification returns type `T` (configured with the single field
`F`), and the extraction oracle controls the field dict. -/

def c6DocFields : List (String × List (String × String)) := [("T", [("F", "d")])]

def c6ClassOracle : String → String → JsonObj :=
  fun _ _ => [("classified_type", JsonVal.str "T")]

def c6Cases : List (String × List String) := [("C1", ["a 1.pdf"])]

/-- An extraction response violating the FieldValue invariant: `value` is
`null` but `confidence` is `1`. -/
def c6BadExtractOracle : String → String → String → List (String × String) → JsonObj :=
  fun _ _ _ _ => [("F", JsonVal.obj
    [("value", JsonVal.null), ("confidence", JsonVal.num 1),
     ("reasoning", JsonVal.str "r")])]

/-- The single output row of the run driven by `c6BadExtractOracle`. -/
def c6BadRow : Row :=
  [("CASE_ID", JsonVal.str "C1"), ("GROUP_Basename", JsonVal.str "a"),
   ("CLASSIFIED_Type", JsonVal.str "T"),
   ("CLASSIFICATION_Confidence", JsonVal.null),
   ("CLASSIFICATION_Reasoning", JsonVal.null),
   ("Processing_Status", JsonVal.str "Extraction Successful"),
   ("T_F_Value", JsonVal.null), ("T_F_Confidence", JsonVal.num 1),
   ("T_F_Reasoning", JsonVal.str "r")]

/-- A well-behaved extraction response: `value` null, `confidence` `0`. -/
def c6GoodExtractOracle : String → String → String → List (String × String) → JsonObj :=
  fun _ _ _ _ => [("F", JsonVal.obj
    [("value", JsonVal.null), ("confidence", JsonVal.num 0),
     ("reasoning", JsonVal.str "r")])]

/-- The single output row of the run driven by `c6GoodExtractOracle`. -/
def c6GoodRow : Row :=
  [("CASE_ID", JsonVal.str "C1"), ("GROUP_Basename", JsonVal.str "a"),
   ("CLASSIFIED_Type", JsonVal.str "T"),
   ("CLASSIFICATION_Confidence", JsonVal.null),
   ("CLASSIFICATION_Reasoning", JsonVal.null),
   ("Processing_Status", JsonVal.str "Extraction Successful"),
   ("T_F_Value", JsonVal.null), ("T_F_Confidence", JsonVal.num 0),
   ("T_F_Reasoning", JsonVal.str "r")]

/-- C6, counterexample: the pipeline copies the extraction response's
`confidence` into the row verbatim — `_flatten` (lines 491–506) never checks
it against `value`.  With an extraction response whose field has
`value = null` and `confidence = 1`, the aggregated row holds
`T_F_Value = null` next to `T_F_Confidence = 1 ≠ 0.0`, so the FieldValue
invariant does NOT hold for arbitrary extraction responses. -/
theorem field_null_confidence_counterexample :
    processCore c6DocFields c6ClassOracle c6BadExtractOracle c6Cases = [c6BadRow] ∧
    c6BadRow.lookup ("T_F" ++ "_Value") = some JsonVal.null ∧
    c6BadRow.lookup ("T_F" ++ "_Confidence") = some (JsonVal.num 1) ∧
    JsonVal.num 1 ≠ JsonVal.num 0 := by
  refine ⟨rfl, rfl, rfl, ?_⟩
  intro hcon
  injection hcon with h1
  exact one_ne_zero h1

/-- C6, amended: the `value = null ⇒ confidence = 0.0` invariant holds for
every row of the aggregated output PROVIDED the extraction oracle is
well-behaved — every dict-shaped field of every extraction response whose
`value` is `null` (or missing) carries `confidence = 0`.  The pipeline
itself preserves this: rows without `_Value` columns satisfy it vacuously,
and the flattening loop copies `value` and `confidence` from the same field
dict into the `q_Value` / `q_Confidence` cells of the same prefix `q`. -/
theorem field_null_confidence_amended
    (docFields : List (String × List (String × String)))
    (classOracle : String → String → JsonObj)
    (extractOracle : String → String → String → List (String × String) → JsonObj)
    (cases : List (String × List String))
    (hwf : ∀ c b ct fl fname o,
      (extractOracle c b ct fl).lookup fname = some (JsonVal.obj o) →
      (o.lookup "value").getD JsonVal.null = JsonVal.null →
      o.lookup "confidence" = some (JsonVal.num 0)) :
    ∀ row ∈ processCore docFields classOracle extractOracle cases,
      ∀ q : String, row.lookup (q ++ "_Value") = some JsonVal.null →
        row.lookup (q ++ "_Confidence") = some (JsonVal.num 0) := by
  intro row hrow
  unfold processCore at hrow
  rcases List.mem_append.mp hrow with hfront | h5
  on_goal 2 =>
    unfold step5Rows at h5
    rcases List.mem_map.mp h5 with ⟨t, _, hr⟩
    exact hr ▸ buildExtractionRow_valueConfOK t.caseId t.baseName t.ctype t.fields
      (classOracle t.caseId t.baseName) (extractOracle t.caseId t.baseName t.ctype t.fields)
      (fun fname o => hwf t.caseId t.baseName t.ctype t.fields fname o)
  rcases List.mem_append.mp hfront with hna | h4
  · unfold naRows at hna
    rcases List.mem_map.mp hna with ⟨cf, _, hr⟩
    exact hr ▸ valueConfOK_of_value_none (lookup_naRow_value cf.1)
  · unfold step4Rows at h4
    rcases List.mem_filterMap.mp h4 with ⟨k, _, hmatch⟩
    revert hmatch
    cases hdec : step4Decision docFields cases (classOracle k.1 k.2) k.1 k.2 with
    | row r =>
        intro hmatch
        have hr : r = row := Option.some.inj hmatch
        exact hr ▸ step4Decision_row_valueConfOK docFields cases
          (classOracle k.1 k.2) k.1 k.2 r hdec
    | task t => exact fun hmatch => Option.noConfusion hmatch
    | dropped => exact fun hmatch => Option.noConfusion hmatch

/-- C6 amendment at work on a concrete run: the well-behaved oracle
`c6GoodExtractOracle` yields a row with a null `T_F_Value`, and the amended
invariant forces `T_F_Confidence = 0`. -/
theorem field_null_confidence_amended_witness :
    List.lookup ("T_F" ++ "_Confidence") c6GoodRow = some (JsonVal.num 0) := by
  have hpc : processCore c6DocFields c6ClassOracle c6GoodExtractOracle c6Cases
      = [c6GoodRow] := rfl
  have hmem : c6GoodRow ∈ processCore c6DocFields c6ClassOracle c6GoodExtractOracle c6Cases := by
    rw [hpc]
    exact List.mem_singleton.mpr rfl
  refine field_null_confidence_amended c6DocFields c6ClassOracle c6GoodExtractOracle
    c6Cases ?_ c6GoodRow hmem "T_F" (by rfl)
  intro c b ct fl fname o hlk hv
  have hred : c6GoodExtractOracle c b ct fl = [("F", JsonVal.obj
      [("value", JsonVal.null), ("confidence", JsonVal.num 0),
       ("reasoning", JsonVal.str "r")])] := rfl
  rw [hred] at hlk
  by_cases hF : fname = "F"
  · subst hF
    rw [lookup_cons_self] at hlk
    injection hlk with h1
    injection h1 with h2
    subst h2
    rfl
  · rw [lookup_cons_ne _ _ _ _ hF] at hlk
    exact Option.noConfusion hlk

/-! ## C7: the Processing_Status taxonomy -/

/-- The seven status forms enumerated by the specification, verbatim
(note the missing space in the first one). -/
def specStatusSeven (s : String) : Prop :=
  (∃ d, s = "ClassificationFailed: " ++ d) ∨
  s = "Classified as UNKNOWN" ∨
  (∃ t, s = "Classified as '" ++ t ++ "' (Unsupported/Not Configured)") ∨
  s = "Extraction skipped - No fields configured" ∨
  s = "Extraction Successful" ∨
  s = "Extraction Partially Successful (Format Issue)" ∨
  (∃ d, s = "Extraction Failed: " ++ d)

/-- The status forms the code actually emits (processing.py lines 369–373,
423–453, 477–513). -/
def statusForms (s : String) : Prop :=
  (∃ d, s = "Classification Failed: " ++ d) ∨
  s = "Classified as UNKNOWN" ∨
  (∃ t, s = "Classified as '" ++ t ++ "' (Unsupported/Not Configured)") ∨
  s = "Classification result: Not Classified" ∨
  s = "Extraction skipped - No fields configured" ∨
  s = "Extraction Successful" ∨
  s = "Extraction Partially Successful (Format Issue)" ∨
  (∃ d, s = "Extraction Failed: " ++ d) ∨
  s = "No processable document files found"

/-- A string whose prefix-length characters differ from `p` is not
`p ++ d` for any `d`. -/
theorem not_eq_append_of_take {s p : String}
    (h : s.data.take p.data.length ≠ p.data) : ∀ d, s ≠ p ++ d := by
  intro d hcon
  apply h
  have hd : s.data = p.data ++ d.data := by
    have := congrArg String.data hcon
    simpa only [String.data_append] using this
  rw [hd, List.take_left]

/-- Likewise for the three-part shape `p ++ t ++ q`. -/
theorem not_eq_append3_of_take {s p q : String}
    (h : s.data.take p.data.length ≠ p.data) : ∀ t, s ≠ p ++ t ++ q := by
  intro t hcon
  apply h
  have hd : s.data = p.data ++ (t.data ++ q.data) := by
    have := congrArg String.data hcon
    simpa only [String.data_append, List.append_assoc] using this
  rw [hd, List.take_left]

/-- The per-row status property: any `Processing_Status` cell is a string of
one of the nine emitted forms. -/
def psOK (row : Row) : Prop :=
  ∀ v, row.lookup "Processing_Status" = some v →
    ∃ s, v = JsonVal.str s ∧ statusForms s

theorem statusForms_partial :
    statusForms "Extraction Partially Successful (Format Issue)" := by
  right; right; right; right; right; right; left
  rfl

theorem statusForms_unknownStatus (ct : Option JsonVal) :
    statusForms (unknownStatus ct) := by
  cases ct with
  | none =>
      show statusForms "Classification result: Not Classified"
      right; right; right; left
      rfl
  | some v =>
      have hred : unknownStatus (some v)
          = if v.isUnknown then "Classified as UNKNOWN"
            else if v.truthy then
              "Classified as '" ++ v.pyStr ++ "' (Unsupported/Not Configured)"
            else "Classification result: Not Classified" := rfl
      rw [hred]
      cases h1 : v.isUnknown with
      | true =>
          rw [if_pos rfl]
          right; left
          rfl
      | false =>
          rw [if_neg Bool.false_ne_true]
          cases h2 : v.truthy with
          | true =>
              rw [if_pos rfl]
              right; right; left
              exact ⟨v.pyStr, rfl⟩
          | false =>
              rw [if_neg Bool.false_ne_true]
              right; right; right; left
              rfl

theorem psOK_naRow (c : String) : psOK (naRow c) := by
  intro v hv
  unfold naRow at hv
  rw [lookup_cons_ne _ _ _ _ (by decide), lookup_cons_ne _ _ _ _ (by decide),
    lookup_cons_self] at hv
  refine ⟨"No processable document files found", (Option.some.inj hv).symm, ?_⟩
  right; right; right; right; right; right; right; right
  rfl

theorem psOK_classifiedRow (c b : String) (ct : JsonVal) (cr : JsonObj) (st : String)
    (hst : statusForms st) : psOK (classifiedRow c b ct cr st) := by
  intro v hv
  unfold classifiedRow at hv
  rw [lookup_cons_ne _ _ _ _ (by decide), lookup_cons_ne _ _ _ _ (by decide),
    lookup_cons_ne _ _ _ _ (by decide), lookup_cons_ne _ _ _ _ (by decide),
    lookup_cons_ne _ _ _ _ (by decide), lookup_cons_self] at hv
  exact ⟨st, (Option.some.inj hv).symm, hst⟩

theorem psOK_classFailRow (c b : String) (cr : JsonObj) : psOK (classFailRow c b cr) := by
  intro v hv
  unfold classFailRow at hv
  rw [lookup_cons_ne _ _ _ _ (by decide), lookup_cons_ne _ _ _ _ (by decide),
    lookup_cons_self] at hv
  refine ⟨_, (Option.some.inj hv).symm, ?_⟩
  left
  exact ⟨_, rfl⟩

theorem psOK_step4_row (docFields : List (String × List (String × String)))
    (cases : List (String × List String)) (classResult : JsonObj) (c b : String)
    (r : Row) (h : step4Decision docFields cases classResult c b = Step4Decision.row r) :
    psOK r := by
  unfold step4Decision at h
  split at h
  · split at h
    · split at h
      · split at h
        · split at h
          · exact Step4Decision.noConfusion h
          · exact Step4Decision.noConfusion h
        · exact Step4Decision.noConfusion h
      · cases h
        apply psOK_classifiedRow
        right; right; right; right; left
        rfl
    · cases h
      exact psOK_classifiedRow _ _ _ _ _ (statusForms_unknownStatus _)
  · cases h
    exact psOK_classFailRow _ _ _

/-- One flattening step preserves the status property: the dict arm leaves
`Processing_Status` alone, the format-issue arm overwrites it with the
partially-successful status. -/
theorem flattenField_psOK (ctype : String) (er : JsonObj) (fd : String × String)
    (row : Row) (hrow : psOK row) : psOK (flattenField ctype er row fd) := by
  unfold flattenField
  cases hlf : er.lookup fd.1 with
  | some v =>
      cases v with
      | obj o =>
          intro w hw
          rw [lookup_insertCell_ne _ _ _ _ (fun hcon =>
              (append_ne_lit "_Reasoning" "Processing_Status" (by decide) _) hcon.symm),
            lookup_insertCell_ne _ _ _ _ (fun hcon => conf_ne_ps _ hcon.symm),
            lookup_insertCell_ne _ _ _ _ (fun hcon => val_ne_ps _ hcon.symm)] at hw
          exact hrow w hw
      | null =>
          intro w hw
          rw [lookup_insertCell_self] at hw
          exact ⟨_, (Option.some.inj hw).symm, statusForms_partial⟩
      | bool b0 =>
          intro w hw
          rw [lookup_insertCell_self] at hw
          exact ⟨_, (Option.some.inj hw).symm, statusForms_partial⟩
      | num n0 =>
          intro w hw
          rw [lookup_insertCell_self] at hw
          exact ⟨_, (Option.some.inj hw).symm, statusForms_partial⟩
      | str s0 =>
          intro w hw
          rw [lookup_insertCell_self] at hw
          exact ⟨_, (Option.some.inj hw).symm, statusForms_partial⟩
      | arr l0 =>
          intro w hw
          rw [lookup_insertCell_self] at hw
          exact ⟨_, (Option.some.inj hw).symm, statusForms_partial⟩
  | none =>
      intro w hw
      rw [lookup_insertCell_self] at hw
      exact ⟨_, (Option.some.inj hw).symm, statusForms_partial⟩

theorem foldl_psOK (ctype : String) (er : JsonObj) :
    ∀ (fields : List (String × String)) (row : Row), psOK row →
      psOK (fields.foldl (flattenField ctype er) row)
  | [], _, h => h
  | fd :: rest, row, h =>
      foldl_psOK ctype er rest _ (flattenField_psOK ctype er fd row h)

theorem psOK_buildExtractionRow (c b ctype : String) (fields : List (String × String))
    (classResult : JsonObj) (ero : Option JsonObj) :
    psOK (buildExtractionRow c b ctype fields classResult ero) := by
  cases ero with
  | none =>
      intro v hv
      have hred : buildExtractionRow c b ctype fields classResult none
          = insertCell (baseRowData c b ctype classResult) "Processing_Status"
            (.str "Extraction Failed: Invalid extraction result") := rfl
      rw [hred, lookup_insertCell_self] at hv
      refine ⟨_, (Option.some.inj hv).symm, ?_⟩
      right; right; right; right; right; right; right; left
      exact ⟨"Invalid extraction result", rfl⟩
  | some er =>
      have hred : buildExtractionRow c b ctype fields classResult (some er)
          = if (er.lookup "error").isNone then
              fields.foldl (flattenField ctype er)
                (insertCell (baseRowData c b ctype classResult) "Processing_Status"
                  (.str "Extraction Successful"))
            else
              insertCell (baseRowData c b ctype classResult) "Processing_Status"
                (.str ("Extraction Failed: " ++
                  (((er.lookup "error").map JsonVal.pyStr).getD
                    "Unknown extraction error"))) := rfl
      rw [hred]
      by_cases he : (er.lookup "error").isNone
      · rw [if_pos he]
        apply foldl_psOK
        intro v hv
        rw [lookup_insertCell_self] at hv
        refine ⟨_, (Option.some.inj hv).symm, ?_⟩
        right; right; right; right; right; left
        rfl
      · rw [if_neg he]
        intro v hv
        rw [lookup_insertCell_self] at hv
        refine ⟨_, (Option.some.inj hv).symm, ?_⟩
        right; right; right; right; right; right; right; left
        exact ⟨_, rfl⟩

/-- A classification oracle that reports a transport/parse failure. -/
def c7FailClassOracle : String → String → JsonObj :=
  fun _ _ => [("error", JsonVal.str "boom")]

/-- C7, counterexample: two output statuses escape the spec's seven-form
taxonomy.  A failed classification yields `Classification Failed: boom` —
with a space, so it matches the spec's `ClassificationFailed: <detail>`
form for no detail — and a case whose files are all unsupported yields
`No processable document files found`, which matches none of the seven
forms. -/
theorem processing_status_counterexample :
    ((processCore c6DocFields c7FailClassOracle c6GoodExtractOracle c6Cases).map
        (fun r => r.lookup "Processing_Status")
      = [some (JsonVal.str "Classification Failed: boom")] ∧
      ¬ specStatusSeven "Classification Failed: boom") ∧
    ((processCore c6DocFields c6ClassOracle c6GoodExtractOracle [("C2", ["x.txt"])]).map
        (fun r => r.lookup "Processing_Status")
      = [some (JsonVal.str "No processable document files found")] ∧
      ¬ specStatusSeven "No processable document files found") := by
  refine ⟨⟨rfl, ?_⟩, rfl, ?_⟩
  · rintro (⟨d, hd⟩ | h | ⟨t, ht⟩ | h | h | h | ⟨d, hd⟩)
    · exact not_eq_append_of_take (by decide) d hd
    · exact absurd h (by decide)
    · exact not_eq_append3_of_take (by decide) t ht
    · exact absurd h (by decide)
    · exact absurd h (by decide)
    · exact absurd h (by decide)
    · exact not_eq_append_of_take (by decide) d hd
  · rintro (⟨d, hd⟩ | h | ⟨t, ht⟩ | h | h | h | ⟨d, hd⟩)
    · exact not_eq_append_of_take (by decide) d hd
    · exact absurd h (by decide)
    · exact not_eq_append3_of_take (by decide) t ht
    · exact absurd h (by decide)
    · exact absurd h (by decide)
    · exact absurd h (by decide)
    · exact not_eq_append_of_take (by decide) d hd

/-- C7, amended: every `Processing_Status` cell of every aggregated output
row is a string of one of NINE forms: the spec's seven — with the first one
corrected to `Classification Failed: <detail>`, with a space — plus
`Classification result: Not Classified` (a falsy classified type) and
`No processable document files found` (a case with no processable files).
The forms are mutually exclusive: the five parameter-free literals are
pairwise distinct and no one of them or of the parametric instances shares
another form's fixed prefix. -/
theorem processing_status_amended
    (docFields : List (String × List (String × String)))
    (classOracle : String → String → JsonObj)
    (extractOracle : String → String → String → List (String × String) → JsonObj)
    (cases : List (String × List String)) :
    ∀ row ∈ processCore docFields classOracle extractOracle cases,
      ∀ v, row.lookup "Processing_Status" = some v →
        ∃ s, v = JsonVal.str s ∧ statusForms s := by
  intro row hrow
  unfold processCore at hrow
  rcases List.mem_append.mp hrow with hfront | h5
  on_goal 2 =>
    unfold step5Rows at h5
    rcases List.mem_map.mp h5 with ⟨t, _, hr⟩
    exact hr ▸ psOK_buildExtractionRow t.caseId t.baseName t.ctype t.fields
      (classOracle t.caseId t.baseName) (some (extractOracle t.caseId t.baseName t.ctype t.fields))
  rcases List.mem_append.mp hfront with hna | h4
  · unfold naRows at hna
    rcases List.mem_map.mp hna with ⟨cf, _, hr⟩
    exact hr ▸ psOK_naRow cf.1
  · unfold step4Rows at h4
    rcases List.mem_filterMap.mp h4 with ⟨k, _, hmatch⟩
    revert hmatch
    cases hdec : step4Decision docFields cases (classOracle k.1 k.2) k.1 k.2 with
    | row r =>
        intro hmatch
        have hr : r = row := Option.some.inj hmatch
        exact hr ▸ psOK_step4_row docFields cases (classOracle k.1 k.2) k.1 k.2 r hdec
    | task t => exact fun hmatch => Option.noConfusion hmatch
    | dropped => exact fun hmatch => Option.noConfusion hmatch

/-- C7 amendment at work on a concrete run: the classification-failure row's
status ends up in the nine-form taxonomy. -/
theorem processing_status_amended_witness :
    ∃ s, JsonVal.str "Classification Failed: boom" = JsonVal.str s ∧ statusForms s := by
  have hpc : processCore c6DocFields c7FailClassOracle c6GoodExtractOracle c6Cases
      = [classFailRow "C1" "a" [("error", JsonVal.str "boom")]] := rfl
  have hmem : classFailRow "C1" "a" [("error", JsonVal.str "boom")]
      ∈ processCore c6DocFields c7FailClassOracle c6GoodExtractOracle c6Cases := by
    rw [hpc]
    exact List.mem_singleton.mpr rfl
  exact processing_status_amended c6DocFields c7FailClassOracle c6GoodExtractOracle
    c6Cases (classFailRow "C1" "a" [("error", JsonVal.str "boom")]) hmem
    (JsonVal.str "Classification Failed: boom") (by rfl)

/-! ## C1: one output row per document group

The count of rows carrying a given `(CASE_ID, GROUP_Basename)` pair.  The
hypothesis that the case ids are distinct reflects the source: case ids are
the top-level folder names of the extracted zip, which the filesystem keeps
unique. -/

/-- Does a row carry exactly this `(case_id, base_name)` key? -/
def rowKeyMatch (c b : String) (row : Row) : Bool :=
  match row.lookup "CASE_ID", row.lookup "GROUP_Basename" with
  | some (.str c'), some (.str b') => c' == c && b' == b
  | _, _ => false

theorem lookup_cons_ne_g {β : Type} (k k' : String) (v : β) (rest : List (String × β))
    (h : k ≠ k') : List.lookup k ((k', v) :: rest) = List.lookup k rest := by
  rw [List.lookup]
  have hb : (k == k') = false := beq_eq_false_iff_ne.mpr h
  rw [hb]

theorem lookup_cons_self_g {β : Type} (k : String) (v : β) (rest : List (String × β)) :
    List.lookup k ((k, v) :: rest) = some v := by
  rw [List.lookup, beq_self_eq_true]

theorem insertGroup_keys (m : List (String × List PageEntry)) (b : String) (e : PageEntry) :
    (insertGroup m b e).map Prod.fst
      = if b ∈ m.map Prod.fst then m.map Prod.fst else m.map Prod.fst ++ [b] := by
  induction m with
  | nil =>
      rw [List.map_nil, if_neg (List.not_mem_nil b)]
      rfl
  | cons kv rest ih =>
      obtain ⟨k, v⟩ := kv
      unfold insertGroup
      by_cases hk : k = b
      · subst hk
        rw [if_pos rfl]
        show k :: rest.map Prod.fst
          = if k ∈ k :: rest.map Prod.fst then k :: rest.map Prod.fst
            else (k :: rest.map Prod.fst) ++ [k]
        rw [if_pos (List.mem_cons_self _ _)]
      · rw [if_neg hk]
        show k :: (insertGroup rest b e).map Prod.fst
          = if b ∈ k :: rest.map Prod.fst then k :: rest.map Prod.fst
            else (k :: rest.map Prod.fst) ++ [b]
        rw [ih]
        have hbk : (b ∈ k :: rest.map Prod.fst) ↔ b ∈ rest.map Prod.fst := by
          rw [List.mem_cons]
          exact or_iff_right (fun hcon => hk hcon.symm)
        by_cases hb : b ∈ rest.map Prod.fst
        · rw [if_pos hb, if_pos (hbk.mpr hb)]
        · rw [if_neg hb, if_neg (fun hcon => hb (hbk.mp hcon)), List.cons_append]

theorem addFileToGroups_keys_nodup (m : List (String × List PageEntry)) (f : String)
    (h : (m.map Prod.fst).Nodup) : ((addFileToGroups m f).map Prod.fst).Nodup := by
  unfold addFileToGroups
  by_cases hs : isSupportedDocFile f = true
  · rw [if_pos hs, insertGroup_keys]
    by_cases hb : (parseFilenameForGrouping f).1 ∈ m.map Prod.fst
    · rwa [if_pos hb]
    · rw [if_neg hb, List.nodup_append]
      exact ⟨h, List.nodup_singleton _,
        fun a ha hb' => hb ((List.mem_singleton.mp hb') ▸ ha)⟩
  · rwa [if_neg hs]

theorem foldl_keys_nodup (files : List String) :
    ∀ acc : List (String × List PageEntry), (acc.map Prod.fst).Nodup →
      ((files.foldl addFileToGroups acc).map Prod.fst).Nodup := by
  induction files with
  | nil => exact fun acc h => h
  | cons f fs ih =>
      intro acc h
      rw [List.foldl_cons]
      exact ih _ (addFileToGroups_keys_nodup acc f h)

theorem groupKeys_map (files : List String) :
    (groupFilesByBaseName files).map Prod.fst
      = (files.foldl addFileToGroups []).map Prod.fst := by
  unfold groupFilesByBaseName
  rw [List.map_map]
  rfl

theorem groupKeys_nodup (files : List String) :
    ((groupFilesByBaseName files).map Prod.fst).Nodup := by
  rw [groupKeys_map]
  exact foldl_keys_nodup files [] List.nodup_nil

theorem insertGroup_values (m : List (String × List PageEntry)) (b : String)
    (e : PageEntry) (h : ∀ g ∈ m, g.2 ≠ []) : ∀ g ∈ insertGroup m b e, g.2 ≠ [] := by
  induction m with
  | nil =>
      intro g hg
      rw [show insertGroup [] b e = [(b, [e])] from rfl, List.mem_singleton] at hg
      subst hg
      exact List.cons_ne_nil _ _
  | cons kv rest ih =>
      obtain ⟨k, v⟩ := kv
      intro g hg
      unfold insertGroup at hg
      by_cases hk : k = b
      · rw [if_pos hk] at hg
        rcases List.mem_cons.mp hg with rfl | hg'
        · exact fun hcon => List.append_ne_nil_of_right_ne_nil v (List.cons_ne_nil _ _) hcon
        · exact h g (List.mem_cons_of_mem _ hg')
      · rw [if_neg hk] at hg
        rcases List.mem_cons.mp hg with rfl | hg'
        · exact h (k, v) (List.mem_cons_self _ _)
        · exact ih (fun g' hg'' => h g' (List.mem_cons_of_mem _ hg'')) g hg'

theorem foldl_values_nonempty (files : List String) :
    ∀ acc : List (String × List PageEntry), (∀ g ∈ acc, g.2 ≠ []) →
      ∀ g ∈ files.foldl addFileToGroups acc, g.2 ≠ [] := by
  induction files with
  | nil => exact fun acc h => h
  | cons f fs ih =>
      intro acc h
      rw [List.foldl_cons]
      refine ih _ ?_
      unfold addFileToGroups
      by_cases hs : isSupportedDocFile f = true
      · rw [if_pos hs]
        exact insertGroup_values acc _ _ h
      · rwa [if_neg hs]

theorem groupValues_nonempty (files : List String) :
    ∀ g ∈ groupFilesByBaseName files, (!g.2.isEmpty) = true := by
  intro g hg
  unfold groupFilesByBaseName at hg
  rcases List.mem_map.mp hg with ⟨g0, hg0, hmap⟩
  have hne : g0.2 ≠ [] := foldl_values_nonempty files [] (fun _ h => absurd h
    (List.not_mem_nil _)) g0 hg0
  have hsort : g.2 = List.insertionSort pageLE g0.2 := by rw [← hmap]
  rw [hsort]
  cases hl : List.insertionSort pageLE g0.2 with
  | nil =>
      exfalso
      apply hne
      have hperm := List.perm_insertionSort pageLE g0.2
      rw [hl] at hperm
      exact (List.Perm.nil_eq hperm).symm
  | cons x xs => rfl

theorem lookup_of_mem_keys_nodup (m : List (String × List PageEntry))
    (hn : (m.map Prod.fst).Nodup) (g : String × List PageEntry) (hg : g ∈ m) :
    m.lookup g.1 = some g.2 := by
  induction m with
  | nil => exact absurd hg (List.not_mem_nil g)
  | cons kv rest ih =>
      obtain ⟨k, v⟩ := kv
      rcases List.mem_cons.mp hg with rfl | hg'
      · exact lookup_cons_self_g _ _ _
      · have hk : k ∉ rest.map Prod.fst := (List.nodup_cons.mp hn).1
        have hne : g.1 ≠ k := by
          intro hcon
          exact hk (hcon ▸ List.mem_map.mpr ⟨g, hg', rfl⟩)
        rw [lookup_cons_ne_g _ _ _ _ hne]
        exact ih (List.nodup_cons.mp hn).2 hg'

theorem initialGroups_lookup (cases : List (String × List String))
    (hnodup : (cases.map Prod.fst).Nodup) (cf : String × List String) (hcf : cf ∈ cases) :
    (initialGroups cases).lookup cf.1 = some (groupFilesByBaseName cf.2) := by
  induction cases with
  | nil => exact absurd hcf (List.not_mem_nil cf)
  | cons hd rest ih =>
      rw [show initialGroups (hd :: rest)
        = (hd.1, groupFilesByBaseName hd.2) :: initialGroups rest from rfl]
      rcases List.mem_cons.mp hcf with rfl | hmem'
      · exact lookup_cons_self_g _ _ _
      · have hne : cf.1 ≠ hd.1 := by
          intro hcon
          exact (List.nodup_cons.mp hnodup).1
            (hcon ▸ List.mem_map.mpr ⟨cf, hmem', rfl⟩)
        rw [lookup_cons_ne_g _ _ _ _ hne]
        exact ih (List.nodup_cons.mp hnodup).2 hmem'

theorem eq_of_mem_nodup_ids (cases : List (String × List String))
    (hnodup : (cases.map Prod.fst).Nodup) (cid : String) (files : List String)
    (h1 : (cid, files) ∈ cases) (cf : String × List String) (h2 : cf ∈ cases)
    (heq : cf.1 = cid) : cf = (cid, files) := by
  induction cases with
  | nil => exact absurd h1 (List.not_mem_nil _)
  | cons hd rest ih =>
      have hhd : hd.1 ∉ rest.map Prod.fst := (List.nodup_cons.mp hnodup).1
      rcases List.mem_cons.mp h1 with he1 | hm1
      · rcases List.mem_cons.mp h2 with rfl | hm2
        · rw [← he1]
        · exfalso
          apply hhd
          rw [← he1] at *
          exact heq ▸ List.mem_map.mpr ⟨cf, hm2, rfl⟩
      · rcases List.mem_cons.mp h2 with rfl | hm2
        · exfalso
          apply hhd
          have : cid ∈ rest.map Prod.fst := List.mem_map.mpr ⟨(cid, files), hm1, rfl⟩
          rwa [heq]
        · exact ih (List.nodup_cons.mp hnodup).2 hm1 hm2

/-! ### Row keys of the emitted row shapes -/

theorem rowKeyMatch_classifiedRow (cid bid c b : String) (ct : JsonVal) (cr : JsonObj)
    (st : String) : rowKeyMatch cid bid (classifiedRow c b ct cr st) = (c == cid && b == bid) := rfl

theorem rowKeyMatch_classFailRow (cid bid c b : String) (cr : JsonObj) :
    rowKeyMatch cid bid (classFailRow c b cr) = (c == cid && b == bid) := rfl

theorem rowKeyMatch_naRow (cid bid c : String) :
    rowKeyMatch cid bid (naRow c) = (c == cid && "N/A" == bid) := rfl

theorem flattenField_lookup_case (ctype : String) (er : JsonObj) (fd : String × String)
    (row : Row) : (flattenField ctype er row fd).lookup "CASE_ID" = row.lookup "CASE_ID" := by
  unfold flattenField
  cases hlf : er.lookup fd.1
  case some v =>
    cases v
    case obj o =>
      rw [lookup_insertCell_ne _ _ _ _ (fun hcon =>
          append_ne_lit "_Reasoning" "CASE_ID" (by decide) _ hcon.symm),
        lookup_insertCell_ne _ _ _ _ (fun hcon =>
          append_ne_lit "_Confidence" "CASE_ID" (by decide) _ hcon.symm),
        lookup_insertCell_ne _ _ _ _ (fun hcon =>
          append_ne_lit "_Value" "CASE_ID" (by decide) _ hcon.symm)]
    all_goals
      rw [lookup_insertCell_ne _ _ _ _ (by decide),
        lookup_insertCell_ne _ _ _ _ (fun hcon =>
          append_ne_lit "_Raw" "CASE_ID" (by decide) _ hcon.symm)]
  case none =>
    rw [lookup_insertCell_ne _ _ _ _ (by decide),
      lookup_insertCell_ne _ _ _ _ (fun hcon =>
        append_ne_lit "_Raw" "CASE_ID" (by decide) _ hcon.symm)]

theorem flattenField_lookup_group (ctype : String) (er : JsonObj) (fd : String × String)
    (row : Row) :
    (flattenField ctype er row fd).lookup "GROUP_Basename" = row.lookup "GROUP_Basename" := by
  unfold flattenField
  cases hlf : er.lookup fd.1
  case some v =>
    cases v
    case obj o =>
      rw [lookup_insertCell_ne _ _ _ _ (fun hcon =>
          append_ne_lit "_Reasoning" "GROUP_Basename" (by decide) _ hcon.symm),
        lookup_insertCell_ne _ _ _ _ (fun hcon =>
          append_ne_lit "_Confidence" "GROUP_Basename" (by decide) _ hcon.symm),
        lookup_insertCell_ne _ _ _ _ (fun hcon =>
          append_ne_lit "_Value" "GROUP_Basename" (by decide) _ hcon.symm)]
    all_goals
      rw [lookup_insertCell_ne _ _ _ _ (by decide),
        lookup_insertCell_ne _ _ _ _ (fun hcon =>
          append_ne_lit "_Raw" "GROUP_Basename" (by decide) _ hcon.symm)]
  case none =>
    rw [lookup_insertCell_ne _ _ _ _ (by decide),
      lookup_insertCell_ne _ _ _ _ (fun hcon =>
        append_ne_lit "_Raw" "GROUP_Basename" (by decide) _ hcon.symm)]

theorem foldl_lookup_case (ctype : String) (er : JsonObj) :
    ∀ (fields : List (String × String)) (row : Row),
      ((fields.foldl (flattenField ctype er) row).lookup "CASE_ID") = row.lookup "CASE_ID"
  | [], _ => rfl
  | fd :: rest, row => by
      rw [List.foldl_cons, foldl_lookup_case ctype er rest, flattenField_lookup_case]

theorem foldl_lookup_group (ctype : String) (er : JsonObj) :
    ∀ (fields : List (String × String)) (row : Row),
      ((fields.foldl (flattenField ctype er) row).lookup "GROUP_Basename")
        = row.lookup "GROUP_Basename"
  | [], _ => rfl
  | fd :: rest, row => by
      rw [List.foldl_cons, foldl_lookup_group ctype er rest, flattenField_lookup_group]

theorem rowKeyMatch_buildRow (cid bid c b ctype : String) (fields : List (String × String))
    (cr : JsonObj) (ero : Option JsonObj) :
    rowKeyMatch cid bid (buildExtractionRow c b ctype fields cr ero)
      = (c == cid && b == bid) := by
  have hcase : (buildExtractionRow c b ctype fields cr ero).lookup "CASE_ID"
      = some (JsonVal.str c) ∧
      (buildExtractionRow c b ctype fields cr ero).lookup "GROUP_Basename"
      = some (JsonVal.str b) := by
    cases ero with
    | none =>
        constructor
        · rw [show buildExtractionRow c b ctype fields cr none
            = insertCell (baseRowData c b ctype cr) "Processing_Status"
              (.str "Extraction Failed: Invalid extraction result") from rfl,
            lookup_insertCell_ne _ _ _ _ (by decide)]
          rfl
        · rw [show buildExtractionRow c b ctype fields cr none
            = insertCell (baseRowData c b ctype cr) "Processing_Status"
              (.str "Extraction Failed: Invalid extraction result") from rfl,
            lookup_insertCell_ne _ _ _ _ (by decide)]
          rfl
    | some er =>
        have hred : buildExtractionRow c b ctype fields cr (some er)
            = if (er.lookup "error").isNone then
                fields.foldl (flattenField ctype er)
                  (insertCell (baseRowData c b ctype cr) "Processing_Status"
                    (.str "Extraction Successful"))
              else
                insertCell (baseRowData c b ctype cr) "Processing_Status"
                  (.str ("Extraction Failed: " ++
                    (((er.lookup "error").map JsonVal.pyStr).getD
                      "Unknown extraction error"))) := rfl
        by_cases he : (er.lookup "error").isNone
        · rw [hred, if_pos he]
          constructor
          · rw [foldl_lookup_case, lookup_insertCell_ne _ _ _ _ (by decide)]
            rfl
          · rw [foldl_lookup_group, lookup_insertCell_ne _ _ _ _ (by decide)]
            rfl
        · rw [hred, if_neg he]
          constructor
          · rw [lookup_insertCell_ne _ _ _ _ (by decide)]
            rfl
          · rw [lookup_insertCell_ne _ _ _ _ (by decide)]
            rfl
  unfold rowKeyMatch
  rw [hcase.1, hcase.2]

/-! ### Counting rows over the step-4/step-5 key list -/

/-- How many `P`-rows the key `k` contributes to the output: its direct
step-4 row, its step-5 extraction row, or none when the logic-error arm
drops it. -/
def keyContrib (docFields : List (String × List (String × String)))
    (classOracle : String → String → JsonObj)
    (extractOracle : String → String → String → List (String × String) → JsonObj)
    (cases : List (String × List String)) (P : Row → Bool) (k : String × String) : Nat :=
  match step4Decision docFields cases (classOracle k.1 k.2) k.1 k.2 with
  | Step4Decision.row r => if P r then 1 else 0
  | Step4Decision.task t =>
      if P (buildExtractionRow t.caseId t.baseName t.ctype t.fields
        (classOracle t.caseId t.baseName)
        (some (extractOracle t.caseId t.baseName t.ctype t.fields))) then 1 else 0
  | Step4Decision.dropped => 0

theorem steps_countP (docFields : List (String × List (String × String)))
    (classOracle : String → String → JsonObj)
    (extractOracle : String → String → String → List (String × String) → JsonObj)
    (cases : List (String × List String)) (P : Row → Bool) :
    ∀ ks : List (String × String),
      (ks.filterMap fun k =>
        match step4Decision docFields cases (classOracle k.1 k.2) k.1 k.2 with
        | Step4Decision.row r => some r
        | _ => none).countP P
      + ((ks.filterMap fun k =>
          match step4Decision docFields cases (classOracle k.1 k.2) k.1 k.2 with
          | Step4Decision.task t => some t
          | _ => none).map fun t =>
            buildExtractionRow t.caseId t.baseName t.ctype t.fields
              (classOracle t.caseId t.baseName)
              (some (extractOracle t.caseId t.baseName t.ctype t.fields))).countP P
      = (ks.map (keyContrib docFields classOracle extractOracle cases P)).sum := by
  intro ks
  induction ks with
  | nil => rfl
  | cons k ks ih =>
      rw [List.map_cons, List.sum_cons]
      cases hdec : step4Decision docFields cases (classOracle k.1 k.2) k.1 k.2 with
      | row r =>
          simp only [List.filterMap_cons, hdec]
          rw [List.countP_cons,
            show keyContrib docFields classOracle extractOracle cases P k
              = if P r then 1 else 0 from by unfold keyContrib; rw [hdec]]
          omega
      | task t =>
          simp only [List.filterMap_cons, hdec]
          rw [List.map_cons, List.countP_cons,
            show keyContrib docFields classOracle extractOracle cases P k
              = if P (buildExtractionRow t.caseId t.baseName t.ctype t.fields
                  (classOracle t.caseId t.baseName)
                  (some (extractOracle t.caseId t.baseName t.ctype t.fields)))
                then 1 else 0 from by unfold keyContrib; rw [hdec]]
          omega
      | dropped =>
          simp only [List.filterMap_cons, hdec]
          rw [show keyContrib docFields classOracle extractOracle cases P k = 0 from by
              unfold keyContrib; rw [hdec]]
          omega

theorem countP_indicator (p : (String × String) → Bool) :
    ∀ l : List (String × String),
      (l.map fun k => if p k = true then 1 else 0).sum = l.countP p := by
  intro l
  induction l with
  | nil => rfl
  | cons a l ih =>
      rw [List.map_cons, List.sum_cons, List.countP_cons, ih]
      by_cases hp : p a = true
      · rw [if_pos hp]
        omega
      · rw [if_neg hp]
        omega

/-! ### Counting a key in the classification task list -/

theorem seg_countP_zero (cf : String × List String) (cid b : String) (hne : cf.1 ≠ cid) :
    (((groupFilesByBaseName cf.2).filter fun g => !g.2.isEmpty).map
      fun g => (cf.1, g.1)).countP (fun k => k.1 == cid && k.2 == b) = 0 := by
  rw [List.countP_eq_zero]
  intro k hk
  rcases List.mem_map.mp hk with ⟨g, _, rfl⟩
  have hf : (cf.1 == cid) = false := beq_eq_false_iff_ne.mpr hne
  simp [hf]

theorem seg_countP_one (cid : String) (files : List String) (b : String)
    (hb : b ∈ (groupFilesByBaseName files).map Prod.fst) :
    (((groupFilesByBaseName files).filter fun g => !g.2.isEmpty).map
      fun g => (cid, g.1)).countP (fun k => k.1 == cid && k.2 == b) = 1 := by
  rw [List.filter_eq_self.mpr (groupValues_nonempty files), List.countP_map]
  have hfun : ((fun k : String × String => k.1 == cid && k.2 == b) ∘
      fun g : String × List PageEntry => (cid, g.1))
      = fun g : String × List PageEntry => g.1 == b := by
    funext g
    show ((cid, g.1).1 == cid && (cid, g.1).2 == b) = (g.1 == b)
    rw [show ((cid, g.1).1 == cid) = true from beq_self_eq_true cid, Bool.true_and]
  rw [hfun,
    show (fun g : String × List PageEntry => g.1 == b)
      = ((fun x => x == b) ∘ Prod.fst) from rfl, ← List.countP_map,
    show List.countP (fun x => x == b) ((groupFilesByBaseName files).map Prod.fst)
      = List.count b ((groupFilesByBaseName files).map Prod.fst) from rfl]
  exact List.count_eq_one_of_mem (groupKeys_nodup files) hb

theorem classTaskKeys_countP_zero (cases : List (String × List String)) (cid b : String)
    (hnot : cid ∉ cases.map Prod.fst) :
    (classTaskKeys cases).countP (fun k => k.1 == cid && k.2 == b) = 0 := by
  rw [List.countP_eq_zero]
  intro k hk
  unfold classTaskKeys at hk
  rcases List.mem_flatMap.mp hk with ⟨cf, hcf, hk2⟩
  rcases List.mem_map.mp hk2 with ⟨g, _, rfl⟩
  have hne : cf.1 ≠ cid := fun hcon => hnot (hcon ▸ List.mem_map.mpr ⟨cf, hcf, rfl⟩)
  have hf : (cf.1 == cid) = false := beq_eq_false_iff_ne.mpr hne
  simp [hf]

theorem classTaskKeys_countP (cases : List (String × List String))
    (hnodup : (cases.map Prod.fst).Nodup) (cid : String) (files : List String)
    (hmem : (cid, files) ∈ cases) (b : String)
    (hb : b ∈ (groupFilesByBaseName files).map Prod.fst) :
    (classTaskKeys cases).countP (fun k => k.1 == cid && k.2 == b) = 1 := by
  induction cases with
  | nil => exact absurd hmem (List.not_mem_nil _)
  | cons cf rest ih =>
      rw [show classTaskKeys (cf :: rest)
        = (((groupFilesByBaseName cf.2).filter fun g => !g.2.isEmpty).map
            fun g => (cf.1, g.1)) ++ classTaskKeys rest from rfl,
        List.countP_append]
      have hhd : cf.1 ∉ rest.map Prod.fst := (List.nodup_cons.mp hnodup).1
      have htl : (rest.map Prod.fst).Nodup := (List.nodup_cons.mp hnodup).2
      rcases List.mem_cons.mp hmem with he | hm
      · have hcf : cf = (cid, files) := he.symm
        subst hcf
        rw [show (((groupFilesByBaseName (cid, files).2).filter fun g => !g.2.isEmpty).map
            fun g => ((cid, files).1, g.1)).countP (fun k => k.1 == cid && k.2 == b) = 1
          from seg_countP_one cid files b hb,
          classTaskKeys_countP_zero rest cid b hhd]
      · have hne : cf.1 ≠ cid := fun hcon =>
          hhd (hcon ▸ List.mem_map.mpr ⟨(cid, files), hm, rfl⟩)
        rw [seg_countP_zero cf cid b hne, ih htl hm]

/-! ### Evaluating the per-key contribution -/

theorem step4_row_keyMatch (docFields : List (String × List (String × String)))
    (cases : List (String × List String)) (cr : JsonObj) (c b : String) (r : Row)
    (h : step4Decision docFields cases cr c b = Step4Decision.row r) (cid bid : String) :
    rowKeyMatch cid bid r = (c == cid && b == bid) := by
  unfold step4Decision at h
  split at h
  · split at h
    · split at h
      · split at h
        · split at h
          · exact Step4Decision.noConfusion h
          · exact Step4Decision.noConfusion h
        · exact Step4Decision.noConfusion h
      · cases h
        exact rowKeyMatch_classifiedRow cid bid c b _ cr _
    · cases h
      exact rowKeyMatch_classifiedRow cid bid c b _ cr _
  · cases h
    exact rowKeyMatch_classFailRow cid bid c b cr

theorem keyContrib_eq (docFields : List (String × List (String × String)))
    (classOracle : String → String → JsonObj)
    (extractOracle : String → String → String → List (String × String) → JsonObj)
    (cases : List (String × List String)) (hnodup : (cases.map Prod.fst).Nodup)
    (cid b : String) (k : String × String) (hk : k ∈ classTaskKeys cases) :
    keyContrib docFields classOracle extractOracle cases (rowKeyMatch cid b) k
      = if (k.1 == cid && k.2 == b) = true then 1 else 0 := by
  have hlk : ∃ df, lookupDocumentFiles cases k.1 k.2 = some df ∧ (!df.isEmpty) = true := by
    unfold classTaskKeys at hk
    rcases List.mem_flatMap.mp hk with ⟨cf, hcf, hk2⟩
    rcases List.mem_map.mp hk2 with ⟨g, hg, rfl⟩
    have hgf := List.mem_filter.mp hg
    refine ⟨g.2, ?_, hgf.2⟩
    show (((initialGroups cases).lookup cf.1).getD []).lookup g.1 = some g.2
    rw [initialGroups_lookup cases hnodup cf hcf]
    show (groupFilesByBaseName cf.2).lookup g.1 = some g.2
    exact lookup_of_mem_keys_nodup _ (groupKeys_nodup cf.2) g hgf.1
  cases hdec : step4Decision docFields cases (classOracle k.1 k.2) k.1 k.2 with
  | row r =>
      rw [show keyContrib docFields classOracle extractOracle cases (rowKeyMatch cid b) k
          = if rowKeyMatch cid b r = true then 1 else 0 from by
            unfold keyContrib; rw [hdec],
        step4_row_keyMatch docFields cases (classOracle k.1 k.2) k.1 k.2 r hdec cid b]
  | task t =>
      obtain ⟨hc, hb2⟩ := step4Decision_task_key docFields cases (classOracle k.1 k.2)
        k.1 k.2 t hdec
      rw [show keyContrib docFields classOracle extractOracle cases (rowKeyMatch cid b) k
          = if rowKeyMatch cid b (buildExtractionRow t.caseId t.baseName t.ctype t.fields
              (classOracle t.caseId t.baseName)
              (some (extractOracle t.caseId t.baseName t.ctype t.fields))) = true
            then 1 else 0 from by
            unfold keyContrib; rw [hdec],
        rowKeyMatch_buildRow, hc, hb2]
  | dropped =>
      exfalso
      obtain ⟨df, hdf, hne⟩ := hlk
      unfold step4Decision at hdec
      split at hdec
      · split at hdec
        · split at hdec
          · split at hdec
            · split at hdec
              · exact Step4Decision.noConfusion hdec
              · rename_i df2 heq hni
                rw [heq] at hdf
                rw [Option.some.inj hdf] at hni
                exact hni hne
            · rename_i heq
              rw [heq] at hdf
              exact Option.noConfusion hdf
          · exact Step4Decision.noConfusion hdec
        · exact Step4Decision.noConfusion hdec
      · exact Step4Decision.noConfusion hdec

/-- C1: one output row per document group.  For any oracles (so regardless
of classification or extraction success, failure, or skipping), if the case
ids are distinct — they are folder names of one directory in the source —
then for every case `(cid, files)` and every base name `b` produced for it
by the grouping step, the final result list contains exactly one row whose
`CASE_ID` is `cid` and whose `GROUP_Basename` is `b`: no group is dropped
(in particular the `Logic Error` arm at lines 415–419 is unreachable) and
none is duplicated. -/
theorem one_row_per_group
    (docFields : List (String × List (String × String)))
    (classOracle : String → String → JsonObj)
    (extractOracle : String → String → String → List (String × String) → JsonObj)
    (cases : List (String × List String)) (hnodup : (cases.map Prod.fst).Nodup)
    (cid : String) (files : List String) (hmem : (cid, files) ∈ cases)
    (b : String) (hb : b ∈ (groupFilesByBaseName files).map Prod.fst) :
    (processCore docFields classOracle extractOracle cases).countP (rowKeyMatch cid b)
      = 1 := by
  unfold processCore
  rw [List.countP_append, List.countP_append]
  have hna : (naRows cases).countP (rowKeyMatch cid b) = 0 := by
    rw [List.countP_eq_zero]
    intro row hrow
    unfold naRows at hrow
    rcases List.mem_map.mp hrow with ⟨cf, hcf, hr⟩
    rw [← hr, rowKeyMatch_naRow]
    intro hcon
    have h12 := Bool.and_eq_true_iff.mp hcon
    have hceq : cf.1 = cid := eq_of_beq h12.1
    have hcf2 := List.mem_filter.mp hcf
    have hcfe : cf = (cid, files) :=
      eq_of_mem_nodup_ids cases hnodup cid files hmem cf hcf2.1 hceq
    rw [hcfe] at hcf2
    have hkeys : groupFilesByBaseName files = [] := by
      have := hcf2.2
      rwa [List.isEmpty_iff] at this
    rw [hkeys] at hb
    exact absurd hb (List.not_mem_nil b)
  have hsteps : (step4Rows docFields classOracle cases).countP (rowKeyMatch cid b)
      + (step5Rows docFields classOracle extractOracle cases).countP (rowKeyMatch cid b)
      = ((classTaskKeys cases).map
          (keyContrib docFields classOracle extractOracle cases (rowKeyMatch cid b))).sum :=
    steps_countP docFields classOracle extractOracle cases (rowKeyMatch cid b)
      (classTaskKeys cases)
  rw [hna, Nat.zero_add, hsteps, List.map_congr_left (fun k hk =>
      keyContrib_eq docFields classOracle extractOracle cases hnodup cid b k hk),
    countP_indicator, classTaskKeys_countP cases hnodup cid files hmem b hb]

/-- C1 at work on a concrete run: the one-case, one-group pipeline of the
C6 scenario produces exactly one row keyed `("C1", "a")`. -/
theorem one_row_per_group_witness :
    (processCore c6DocFields c6ClassOracle c6GoodExtractOracle c6Cases).countP
      (rowKeyMatch "C1" "a") = 1 :=
  one_row_per_group c6DocFields c6ClassOracle c6GoodExtractOracle c6Cases
    (by decide) "C1" ["a 1.pdf"] (List.mem_singleton.mpr rfl) "a"
    (by rw [show (groupFilesByBaseName ["a 1.pdf"]).map Prod.fst = ["a"] from rfl]
        exact List.mem_singleton.mpr rfl)

end DocPipe

